import Mathlib

/-!
Shallow embedding of the Investor Portfolio backend (Node/Express) core:
the prices route (`routes/prices.js`), the two fundamentals routes
(`routes/fundamentals.js` and the deadline-bounded variant), the BSE
numeric-code resolver (`lib/yahoo.js`), the Google-Finance scraper retry
(`lib/scrape.js`) and the in-memory caches (`lib/cache.js`, lru-cache).

Conventions of the embedding:
* JavaScript strings are Lean `String`s, but all character-level work
  (trim, upper-case, suffix, substring) is done on `String.data` so that
  every definition kernel-reduces on concrete inputs.
* Machine time is `Nat` milliseconds.  Promise settlement is modelled by
  an explicit settle time per asynchronous task; `setTimeout` timers fire
  exactly at their delay and continuations are instantaneous.
* Fallible upstream calls are `Except String _` values supplied by an
  environment parameter; a rejected promise is `.error msg`.
* The lru-cache instances are association lists threaded explicitly.
  A JavaScript `Map`/lru-cache `set` updates an existing key in place
  and otherwise appends, which `jsMapSet` mirrors.
-/

namespace Portfolio

/-- JS-style lexicographic comparison of two character lists (code-unit
order, the default `Array.prototype.sort` comparison for strings). -/
def charsLe : List Char → List Char → Bool
  | [], _ => true
  | _ :: _, [] => false
  | a :: as, b :: bs => if a < b then true else if b < a then false else charsLe as bs

/-- JS `a <= b` on strings, used by `Array.prototype.sort()`. -/
def strLe (a b : String) : Bool := charsLe a.data b.data

/-- JS `String.prototype.toUpperCase` (character-wise). -/
def upperStr (s : String) : String := ⟨s.data.map Char.toUpper⟩

/-- JS `String.prototype.endsWith`. -/
def strEndsWith (s suffix : String) : Bool := suffix.data.isSuffixOf s.data

/-- JS `String.prototype.includes`. -/
def strContains (s pat : String) : Bool := s.data.tails.any (pat.data.isPrefixOf ·)

/-- JS `String.prototype.trim`. -/
def strTrim (s : String) : String :=
  ⟨((s.data.dropWhile Char.isWhitespace).reverse.dropWhile Char.isWhitespace).reverse⟩

/-- Modelled from the spec: `lib/symbols.js` is not part of the sources;
its numeric-symbol detection is specified as: the full trimmed string
must match the regular expression of one or more digits. -/
def isNumericSymbol (s : String) : Bool :=
  !(strTrim s).data.isEmpty && (strTrim s).data.all Char.isDigit

/-- Exchanges handled by the system (closed enum per the data model). -/
inductive Exchange
  | NSE
  | BSE
  | BOM
deriving DecidableEq, Repr

def Exchange.str : Exchange → String
  | .NSE => "NSE"
  | .BSE => "BSE"
  | .BOM => "BOM"

/-- A loosely-shaped request item before normalization. -/
structure RawItem where
  symbol : String
  exchange : Option Exchange
deriving DecidableEq, Repr

/-- Modelled from the spec: `lib/symbols.js` is not part of the sources;
its normalizer canonicalizes the symbol (trim + upper-case) and infers
the exchange as BSE when the symbol is purely numeric, else NSE, unless
an exchange is explicitly supplied and valid. -/
def normalizeItemSymbolExchange (i : RawItem) : String × Exchange :=
  let sym := upperStr (strTrim i.symbol)
  match i.exchange with
  | some ex => (sym, ex)
  | none => (sym, if isNumericSymbol sym then Exchange.BSE else Exchange.NSE)

/-- Modelled from the spec: `lib/symbols.js` is not part of the sources;
`cleanSym` canonicalizes a symbol (trim + upper-case). -/
def cleanSym (s : String) : String := upperStr (strTrim s)

/-- Modelled from the spec: `lib/symbols.js` is not part of the sources;
`toYahoo` suffixes `.NS` for NSE and `.BO` otherwise (BSE textual). -/
def toYahoo (sym : String) (ex : Exchange) : String :=
  sym ++ (if ex = Exchange.NSE then ".NS" else ".BO")

/-- JS `Map.prototype.set` / lru-cache `set` on an association list:
updates an existing key in place, otherwise appends. -/
def jsMapSet {α : Type} (m : List (String × α)) (k : String) (v : α) : List (String × α) :=
  if m.any (fun p => p.1 = k) then
    m.map (fun p => if p.1 = k then (k, v) else p)
  else
    m ++ [(k, v)]

/-- JS `Map.prototype.get` / lru-cache `get` on an association list. -/
def jsMapLookup {α : Type} (m : List (String × α)) (k : String) : Option α :=
  (m.find? (fun p => p.1 = k)).map (fun p => p.2)

/-- The key list of an association-list map. -/
def keysOf {α : Type} (m : List (String × α)) : List String := m.map (fun p => p.1)

/-- `yahooSymbols.slice().sort()` (`routes/prices.js`): JS default sort. -/
def sortStrings (l : List String) : List String := l.mergeSort strLe

/-- The short-TTL batch cache key: `slice().sort().join(",")` in
`routes/prices.js`, and `map(i => sym:exch).sort().join(",")` in
`routes/fundamentals.js`. -/
def batchKey (syms : List String) : String := String.intercalate "," (sortStrings syms)

/-! ### `routes/prices.js` -/

/-- Which upstream serves an item (`decideSource`). -/
inductive Source
  | google
  | yahoo
deriving DecidableEq, Repr

structure Job where
  source : Source
  symbol : String
  exchange : Exchange
deriving DecidableEq, Repr

/-- `decideSource` in `routes/prices.js`: BSE + purely numeric symbol goes
to the Google scrape path, everything else to Yahoo.  The source function
re-normalizes the pair it is handed. -/
def decideSource (symbol : String) (exchange : Exchange) : Job :=
  let (s, e) := normalizeItemSymbolExchange ⟨symbol, some exchange⟩
  if e = Exchange.BSE ∧ isNumericSymbol s then ⟨Source.google, s, e⟩
  else ⟨Source.yahoo, s, e⟩

/-- Job list from `items[]`: each item is normalized, then routed. -/
def jobsOfItems (items : List RawItem) : List Job :=
  items.map (fun i =>
    let (s, e) := normalizeItemSymbolExchange i
    decideSource s e)

/-- Job list from `symbols[]`: NSE is assumed unless the symbol is
numeric, in which case BSE (hence the Google path). -/
def jobsOfSymbols (symbols : List String) : List Job :=
  symbols.map (fun s =>
    decideSource s (if isNumericSymbol s then Exchange.BSE else Exchange.NSE))

/-- A per-item price result (`SourceResult` for quotes).  The wall-clock
`ts` field is omitted: it never influences control flow. -/
structure PriceRes where
  ok : Bool
  symbol : String
  price : Option Int
  currency : Option String
  src : String
  error : Option String
deriving DecidableEq, Repr

/-- The object `lib/google_price.js` resolves with (`fetchGoogleCmp`). -/
structure GoogleCmp where
  ok : Bool
  symbol : String
  price : Option Int
  currency : Option String
deriving DecidableEq, Repr

/-- One Google job in the `googleJobs.map` fan-out of `routes/prices.js`:
an `ok` result is passed through, a not-`ok` result and a thrown error
are both converted to `ok:false` entries — nothing escapes the map. -/
def googleItemResult (j : Job) (out : Except String GoogleCmp) : PriceRes :=
  match out with
  | .ok r =>
    if r.ok then ⟨true, r.symbol, r.price, r.currency, "google", none⟩
    else ⟨false, j.symbol ++ ":BOM", none, none, "google",
      some "Google returned no price (page mismatch or no data)"⟩
  | .error m => ⟨false, j.symbol ++ ":BOM", none, none, "google", some m⟩

/-- A raw Yahoo quote payload.  `symbol = none` covers both a missing and
a falsy (empty) `q.symbol`; prices are `Option Int` (`null` = `none`). -/
structure Quote where
  symbol : Option String
  regularMarketPrice : Option Int
  postMarketPrice : Option Int
  preMarketPrice : Option Int
  currency : Option String
deriving DecidableEq, Repr

/-- One settled upstream attempt: `.error` a rejected promise, `.ok none`
a null payload, `.ok (some q)` a quote object. -/
abbrev QuoteAttempt : Type := Except String (Option Quote)

/-- The payload validation of `getQuoteWithRetry`: `!q || (!q.symbol &&
q.regularMarketPrice == null)` throws. -/
def validAttempt : QuoteAttempt → Option Quote
  | .ok (some q) =>
    if q.symbol = none ∧ q.regularMarketPrice = none then none else some q
  | .ok none => none
  | .error _ => none

/-- The error recorded for attempt `a` when it fails (the thrown message,
or the fixed empty-payload message). -/
def attemptErr : QuoteAttempt → Option String
  | .ok (some q) =>
    if q.symbol = none ∧ q.regularMarketPrice = none then
      some "Empty/invalid quote payload from Yahoo"
    else none
  | .ok none => some "Empty/invalid quote payload from Yahoo"
  | .error m => some m

/-- Result of a retry loop together with the backoff sleeps it performed
(in ms, in order). -/
structure RetryTrace (α : Type) where
  result : Except String α
  delays : List Nat
deriving Repr

/-- The loop body of `getQuoteWithRetry` (`routes/prices.js`): attempt
`i`, on failure sleep `300 * (i + 1)` ms and record the error, on
success return immediately; after the attempt budget throw the last
error. -/
def getQuoteWithRetryAux (env : Nat → QuoteAttempt) :
    Nat → Nat → String → List Nat → RetryTrace Quote
  | 0, _, lastErr, delays => ⟨.error lastErr, delays⟩
  | n + 1, i, lastErr, delays =>
    match validAttempt (env i) with
    | some q => ⟨.ok q, delays⟩
    | none =>
      getQuoteWithRetryAux env n (i + 1) ((attemptErr (env i)).getD lastErr)
        (delays ++ [300 * (i + 1)])

/-- `getQuoteWithRetry(sym, attempts)`, abstracted over the per-attempt
upstream outcome.  The route always calls it with `attempts = 3`. -/
def getQuoteWithRetry (env : Nat → QuoteAttempt) (attempts : Nat) : RetryTrace Quote :=
  getQuoteWithRetryAux env attempts 0 "" []

/-- JS `??` chain `regularMarketPrice ?? postMarketPrice ?? preMarketPrice
?? null`. -/
def quotePrice (q : Quote) : Option Int :=
  match q.regularMarketPrice with
  | some p => some p
  | none =>
    match q.postMarketPrice with
    | some p => some p
    | none => q.preMarketPrice

/-- One Yahoo symbol in the `yahooSymbols.map` fan-out: a successful
retry becomes an `ok:true` entry, an exhausted retry becomes an
`ok:false` entry carrying the last error message. -/
def yahooItemResult (s : String) (env : Nat → QuoteAttempt) : PriceRes :=
  match (getQuoteWithRetry env 3).result with
  | .ok q => ⟨true, q.symbol.getD s, quotePrice q, q.currency, "yahoo", none⟩
  | .error m => ⟨false, s, none, none, "yahoo", some m⟩

/-- The short-TTL quotes cache (`quotesCache`, ttl 20 s), keyed by the
sorted joined symbol list; values are whole result arrays. -/
abbrev QuotesCache : Type := List (String × List PriceRes)

/-- The Yahoo sub-batch of the prices route: full-batch cache lookup by
`batchKey`, on miss fan out per symbol and store the whole array. -/
def yahooBatchResults (cache : QuotesCache) (syms : List String)
    (env : String → Nat → QuoteAttempt) : List PriceRes × QuotesCache :=
  if syms.isEmpty then ([], cache)
  else
    match jsMapLookup cache (batchKey syms) with
    | some arr => (arr, cache)
    | none =>
      let arr := syms.map (fun s => yahooItemResult s (env s))
      (arr, jsMapSet cache (batchKey syms) arr)

/-- The merged per-item result array of the prices route:
`[...yahooResults, ...googleResults]`. -/
def pricesFull (cache : QuotesCache) (jobs : List Job)
    (genv : String → Except String GoogleCmp) (yenv : String → Nat → QuoteAttempt) :
    List PriceRes :=
  let googleJobs := jobs.filter (fun j => j.source = Source.google)
  let yahooJobs := jobs.filter (fun j => j.source = Source.yahoo)
  let gRes := googleJobs.map (fun j => googleItemResult j (genv j.symbol))
  let yRes := (yahooBatchResults cache (yahooJobs.map (fun j => toYahoo j.symbol j.exchange)) yenv).1
  yRes ++ gRes

/-- The HTTP outcome of a batch route: a 200 body, or a 502 with the
per-item detail array attached. -/
inductive BatchResponse (α : Type)
  | success (body : List α)
  | batchFailure (msg : String) (details : List α)
deriving DecidableEq, Repr

/-- The final decision of the prices route: 502 `Failed to fetch prices`
iff `full.some(r => r.ok)` is false, else the merged array. -/
def pricesRoute (cache : QuotesCache) (jobs : List Job)
    (genv : String → Except String GoogleCmp) (yenv : String → Nat → QuoteAttempt) :
    BatchResponse PriceRes :=
  let full := pricesFull cache jobs genv yenv
  if full.any (fun r => r.ok) then .success full
  else .batchFailure "Failed to fetch prices" full

/-! ### `lib/scrape.js` -/

/-- A scraped fundamentals record (`scrapeFundamentalsOnce` result; the
`source` url and `ts` fields are dropped, `pe`/`latestEarnings` numeric
strings are modelled as integers). -/
structure Fund where
  symbol : String
  exchange : Exchange
  pe : Option Int
  latestEarnings : Option Int
deriving DecidableEq, Repr

/-- The retry loop of `scrapeFundamentals(symbol, exchange, attempts=2)`:
like the quote retry but with base delay 250 ms and no payload
validation. -/
def scrapeRetryAux (env : Nat → Except String Fund) :
    Nat → Nat → String → List Nat → RetryTrace Fund
  | 0, _, lastErr, delays => ⟨.error lastErr, delays⟩
  | n + 1, i, _lastErr, delays =>
    match env i with
    | .ok f => ⟨.ok f, delays⟩
    | .error m => scrapeRetryAux env n (i + 1) m (delays ++ [250 * (i + 1)])

/-- `scrapeFundamentals` with its default budget of 2 attempts. -/
def scrapeFundamentalsRetry (env : Nat → Except String Fund) (attempts : Nat) :
    RetryTrace Fund :=
  scrapeRetryAux env attempts 0 "" []

/-! ### `lib/yahoo.js` — the BSE numeric-code resolver -/

/-- A Yahoo search result entry; every field a string (missing = ""). -/
structure Candidate where
  symbol : String
  exchange : String
  primaryExchange : String
  exchangeDisp : String
  region : String
  quoteType : String
deriving DecidableEq, Repr

/-- JS `a || b || c || ""`: the first truthy (non-empty) string. -/
def firstTruthy : List String → String
  | [] => ""
  | s :: rest => if s.data.isEmpty then firstTruthy rest else s

/-- `isBO(sym)`: upper-cased symbol ends with `.BO`. -/
def isBO (sym : String) : Bool := strEndsWith (upperStr sym) ".BO"

/-- `scoreCandidate` in `lib/yahoo.js`. -/
def scoreCandidate (q : Candidate) : Nat :=
  let sym := upperStr q.symbol
  let ex := upperStr (firstTruthy [q.exchange, q.primaryExchange, q.exchangeDisp])
  let reg := upperStr q.region
  (if strEndsWith sym ".BO" then 5 else 0) +
    (if strContains ex "BSE" then 3 else 0) +
    (if reg = "IN" then 1 else 0) +
    (if q.quoteType = "EQUITY" then 1 else 0)

/-- A candidate annotated with its score (`{ ...cand, _score: sc }`). -/
structure Scored where
  cand : Candidate
  score : Nat
deriving DecidableEq, Repr

/-- One step of the inner candidate loop:
`if (!best || sc > best._score) best = { ...cand, _score: sc }` (a
strictly greater score replaces the running best; ties keep the earlier
candidate). -/
def foldStep (best : Option Scored) (c : Candidate) : Option Scored :=
  match best with
  | none => some ⟨c, scoreCandidate c⟩
  | some bb => if scoreCandidate c > bb.score then some ⟨c, scoreCandidate c⟩ else best

/-- The inner candidate loop over one query's result list. -/
def foldCandidates (best : Option Scored) : List Candidate → Option Scored
  | [] => best
  | c :: rest => foldCandidates (foldStep best c) rest

/-- The early-exit test after each query:
`best && isBO(best.symbol) && best._score >= 7`. -/
def qualifies : Option Scored → Bool
  | some bb => isBO bb.cand.symbol && decide (7 ≤ bb.score)
  | none => false

/-- The query loop of `resolveBseNumericToYahooSymbol`.  The search
environment gives each query's candidate list; a query whose search call
throws is modelled as yielding `[]` (the `catch {}` keeps the best
unchanged, and the skipped break test is irrelevant because the loop
would already have broken one iteration earlier). -/
def searchLoop (env : String → List Candidate) : List String → Option Scored → Option Scored
  | [], best => best
  | q :: rest, best =>
    let best' := foldCandidates best (env q)
    if qualifies best' then best' else searchLoop env rest best'

/-- The same loop without the early exit: fold every query's candidates.
Used to state what the loop computes when no prefix qualifies. -/
def searchAll (env : String → List Candidate) (qs : List String) (best : Option Scored) :
    Option Scored :=
  qs.foldl (fun b q => foldCandidates b (env q)) best

/-- The query variants: code alone, `code BSE`, `code India`, plus the
three hint-based variants when a hint was provided. -/
def buildQueries (code : String) (hint : Option String) : List String :=
  [code, code ++ " BSE", code ++ " India"] ++
    (match hint with
     | some h => [h ++ " BSE", h ++ " Bombay Stock Exchange", h ++ " .BO"]
     | none => [])

/-- The three BSE pages tried by `fetchBseSecurityId`, in order. -/
inductive BsePage
  | mobile
  | desktopInfo
  | desktopFinancials
deriving DecidableEq, Repr

/-- Number of Security-ID text patterns each page's helper applies, in
source order (`tryMobileSecurityId` 4, `tryDesktopCompanyInfoSecurityId`
4, `tryDesktopFinancialsSecurityId` 3). -/
def patternCount : BsePage → Nat
  | .mobile => 4
  | .desktopInfo => 4
  | .desktopFinancials => 3

/-- A page-scrape environment: `pageMatch pg n` is the (non-empty)
capture of pattern `n` against page `pg`'s HTML, if it matches.  The
regexes themselves stay abstract; only their ordered, first-match
cascade is modelled. -/
abbrev PageEnv : Type := BsePage → Nat → Option String

/-- First `some` in a list of optional matches. -/
def firstSome {α : Type} : List (Option α) → Option α
  | [] => none
  | some v :: _ => some v
  | none :: rest => firstSome rest

/-- One page helper: apply that page's patterns in order, post-process
the first hit with `.trim().toUpperCase()`. -/
def tryPage (env : PageEnv) (pg : BsePage) : Option String :=
  (firstSome ((List.range (patternCount pg)).map (env pg))).map
    (fun s => upperStr (strTrim s))

/-- `fetchBseSecurityId`: mobile page, then desktop company-info page,
then desktop financials page; first hit wins. -/
def fetchBseSecurityId (env : PageEnv) : Option String :=
  match tryPage env .mobile with
  | some s => some s
  | none =>
    match tryPage env .desktopInfo with
    | some s => some s
    | none => tryPage env .desktopFinancials

/-- The spec's reading of the scrape fallback: one flat ordered list of
(page, pattern) extractors, page-major, first non-empty match wins.
Stated from the spec's words, to be compared with `fetchBseSecurityId`. -/
def scrapeCascadeSpec (env : PageEnv) : Option String :=
  (firstSome (([BsePage.mobile, .desktopInfo, .desktopFinancials].map
      (fun pg => (List.range (patternCount pg)).map (env pg))).flatten)).map
    (fun s => upperStr (strTrim s))

/-- The environment of one resolver run: search results per query, page
pattern matches, and the (non-fatal) verify-quote outcome. -/
structure ResolverEnv where
  search : String → List Candidate
  pages : PageEnv
  verify : String → Bool

/-- The 24 h `symbolMapCache` of `lib/yahoo.js`: cache key ↦ resolved
Yahoo symbol. -/
abbrev SymbolCache : Type := List (String × String)

/-- `BSE:${code}:${(hintName || "").toUpperCase()}`. -/
def resolveCacheKey (code : String) (hint : Option String) : String :=
  "BSE:" ++ code ++ ":" ++ upperStr (hint.getD "")

/-- The terminal resolver error, naming the code and the hint if any. -/
def couldNotResolveMsg (code : String) (hint : Option String) : String :=
  "Could not resolve BSE numeric " ++ code ++ " to a Yahoo symbol" ++
    (match hint with
     | some h => " (hint: " ++ h ++ ")"
     | none => "")

/-- `best && best.symbol && isBO(best.symbol)`: the acceptance test on
the search loop's best candidate. -/
def searchAccepted : Option Scored → Bool
  | some bb => !bb.cand.symbol.data.isEmpty && isBO bb.cand.symbol
  | none => false

/-- The scrape-or-fail tail of the resolver: page cascade, `<SECID>.BO`
(the `verifyYahooSymbol` call is non-fatal and its outcome discarded),
cache write on success, `Could not resolve` error otherwise. -/
def resolveScrapeStep (env : ResolverEnv) (cache : SymbolCache) (ck code : String)
    (hint : Option String) : Except String String × SymbolCache :=
  match fetchBseSecurityId env.pages with
  | some secId =>
    let yahooSym := secId ++ ".BO"
    (.ok yahooSym, jsMapSet cache ck yahooSym)
  | none => (.error (couldNotResolveMsg code hint), cache)

/-- `resolveBseNumericToYahooSymbol(numericCode, hintName)`: numeric
guard, cache, search-and-score with early exit, scrape fallback (with
non-fatal verification), error.  Returns the outcome plus the updated
`symbolMapCache`. -/
def resolveBseNumericToYahooSymbol (env : ResolverEnv) (cache : SymbolCache)
    (numericCode : String) (hint : Option String) : Except String String × SymbolCache :=
  let code := strTrim numericCode
  if !(!code.data.isEmpty && code.data.all Char.isDigit) then
    (.error ("Not a numeric BSE code: " ++ code), cache)
  else
    let ck := resolveCacheKey code hint
    match jsMapLookup cache ck with
    | some v => (.ok v, cache)
    | none =>
      let best := searchLoop env.search (buildQueries code hint) none
      match best, searchAccepted best with
      | some bb, true => (.ok bb.cand.symbol, jsMapSet cache ck bb.cand.symbol)
      | _, _ => resolveScrapeStep env cache ck code hint

/-! ### The deadline-bounded fundamentals route (`src/unnamed/part_002`) -/

/-- A normalized fundamentals item (`{symbol, exchange}` after
`normalizeForGoogle`: exchange is BOM or NSE). -/
structure NItem where
  symbol : String
  exchange : Exchange
deriving DecidableEq, Repr

/-- The per-item cache key `` `${i.symbol}:${i.exchange}` ``. -/
def nkey (i : NItem) : String := i.symbol ++ ":" ++ i.exchange.str

/-- `yahooSym.replace(/\.BO$/i, "")`. -/
def stripBOSuffix (s : String) : String :=
  if strEndsWith (upperStr s) ".BO" then ⟨s.data.take (s.data.length - 3)⟩ else s

/-- The 24 h `symbolResolveCache` of the deadline route: raw numeric code
↦ already-normalized item. -/
abbrev ResolveCache : Type := List (String × NItem)

/-- `normalizeForGoogle` of the deadline route: NSE passthrough; BSE
textual → BOM; BSE numeric → resolve-cache lookup, then the resolver
(under a 3 s timeout), falling back to the raw code on any failure, and
caching whichever mapping was produced.  A resolver timeout lands in the
same `catch` as a resolver error and is not distinguished here. -/
def normalizeForGoogle (env : ResolverEnv) (symCache : SymbolCache)
    (rcache : ResolveCache) (item : RawItem) : NItem × SymbolCache × ResolveCache :=
  let (symbol, exchange) := normalizeItemSymbolExchange item
  if exchange = Exchange.BSE then
    let raw := cleanSym symbol
    if isNumericSymbol raw then
      match jsMapLookup rcache raw with
      | some out => (out, symCache, rcache)
      | none =>
        match resolveBseNumericToYahooSymbol env symCache raw none with
        | (.ok yahooSym, symCache') =>
          let out : NItem := ⟨cleanSym (stripBOSuffix yahooSym), Exchange.BOM⟩
          (out, symCache', jsMapSet rcache raw out)
        | (.error _, symCache') =>
          let out : NItem := ⟨cleanSym raw, Exchange.BOM⟩
          (out, symCache', jsMapSet rcache raw out)
    else (⟨cleanSym raw, Exchange.BOM⟩, symCache, rcache)
  else (⟨cleanSym symbol, Exchange.NSE⟩, symCache, rcache)

/-- `items.map(normalizeForGoogle)` with the two caches threaded through
in item order. -/
def normalizeAll (env : ResolverEnv) :
    SymbolCache → ResolveCache → List RawItem → List NItem × SymbolCache × ResolveCache
  | sc, rc, [] => ([], sc, rc)
  | sc, rc, it :: rest =>
    let (n, sc', rc') := normalizeForGoogle env sc rc it
    let (ns, sc'', rc'') := normalizeAll env sc' rc' rest
    (n :: ns, sc'', rc'')

/-- `.reduce((m, i) => m.set(i.key, i), new Map())` over the normalized
items: a JS `Map` keyed by `nkey`. -/
def dedupByKey (l : List NItem) : List (String × NItem) :=
  l.foldl (fun m i => jsMapSet m (nkey i) i) []

/-- `Array.from(normalized.values())`: the deduplicated item list. -/
def uniqItems (l : List NItem) : List NItem := (dedupByKey l).map (fun p => p.2)

/-- The last item of `l` carrying key `k` (JS `Map.set`: later duplicate
overwrites the earlier value). -/
def lastOcc (k : String) : List NItem → Option NItem
  | [] => none
  | i :: rest =>
    match lastOcc k rest with
    | some j => some j
    | none => if nkey i = k then some i else none

/-- An entry of the ~10 min `fundamentalsBySymbol` lru-cache
(`allowStale: true`): the stored value plus its remaining TTL at request
time (≤ 0 = stale but still retained). -/
structure FundEntry where
  value : Fund
  remainingTTL : Int
deriving DecidableEq, Repr

abbrev FundCache : Type := List (String × FundEntry)

/-- A per-item fundamentals result. -/
structure FundRes where
  ok : Bool
  symbol : String
  exchange : Exchange
  pe : Option Int
  latestEarnings : Option Int
  error : Option String
  cacheHit : Bool
deriving DecidableEq, Repr

/-- `{ ok: true, ...c, cache: "hit" }`. -/
def hitRes (f : Fund) : FundRes :=
  ⟨true, f.symbol, f.exchange, f.pe, f.latestEarnings, none, true⟩

/-- `{ ok: true, ...f }` for a settled miss task. -/
def okRes (f : Fund) : FundRes :=
  ⟨true, f.symbol, f.exchange, f.pe, f.latestEarnings, none, false⟩

/-- The `catch` object of a miss task. -/
def errRes (i : NItem) (msg : String) : FundRes :=
  ⟨false, i.symbol, i.exchange, none, none, some msg, false⟩

/-- The hits/misses loop of the deadline route: a cached key becomes an
`ok:true` hit (the stale value is returned as-is, synchronously); when
its remaining TTL is ≤ 0 one background `scrapeFundamentals` refresh is
fired for that key; an uncached key becomes a miss.  Returns
(hit results, refresh keys fired, misses). -/
def partitionHits (cache : FundCache) : List NItem → List FundRes × List String × List NItem
  | [] => ([], [], [])
  | i :: rest =>
    let (h, r, m) := partitionHits cache rest
    match jsMapLookup cache (nkey i) with
    | some e =>
      (hitRes e.value :: h,
        (if e.remainingTTL ≤ 0 then [nkey i] else []) ++ r, m)
    | none => (h, r, i :: m)

/-- How one miss task behaves, as seen by the aggregator: the underlying
`scrapeFundamentals` promise settles `scrapeTime` ms after the task
starts, with the given outcome. -/
structure MissSpec where
  scrapeTime : Nat
  scrapeOutcome : Except String Fund
deriving Repr

/-- When the `withTimeout`-wrapped task settles: the scrape, capped by
the per-item timeout. -/
def taskSettleTime (per : Nat) (m : MissSpec) : Nat := min m.scrapeTime per

/-- The value a miss task fulfills with (tasks never reject: the
`.catch` turns both scrape errors and the per-item timeout into
`ok:false` entries). -/
def taskValue (per : Nat) (i : NItem) (m : MissSpec) : FundRes :=
  if m.scrapeTime ≤ per then
    match m.scrapeOutcome with
    | .ok f => okRes f
    | .error e => errRes i e
  else errRes i "scrape timeout"

/-- The cache write a miss task performs: only a scrape that succeeds
within the per-item timeout reaches the `.then` that stores it; a late
success is dropped by the already-rejected `withTimeout` race and writes
nothing. -/
def taskCacheWrite (per : Nat) (i : NItem) (m : MissSpec) : Option (String × Fund) :=
  if m.scrapeTime ≤ per then
    match m.scrapeOutcome with
    | .ok f => some (nkey i, f)
    | .error _ => none
  else none

/-- `Math.min(Number(req.query.deadlineMs || 7000), 15000)`. -/
def clampDeadline (q : Nat) : Nat := min q 15000

/-- `Math.min(Number(req.query.symbolTimeoutMs || 6000), deadlineMs)`. -/
def clampPerTimeout (q dl : Nat) : Nat := min q dl

/-- What one batch request produced: the HTTP response, the time (ms
after the miss tasks started) at which it was produced, and the
`fundamentalsBySymbol` writes performed by the miss tasks. -/
structure AggOutcome where
  response : BatchResponse FundRes
  readyAt : Nat
  cacheWrites : List (String × Fund)
deriving Repr

/-- The deadline race of the route.  `Promise.allSettled(tasks)` is
ready once every task has settled; it races a timer holding the
remaining deadline budget.  If the timer wins, the route awaits
`allSettled` anyway and keeps the fulfilled values — and every task
fulfills, each within its per-item cap.  Either way the 502 decision is:
no `ok:true` entry in the merged array. -/
def aggregateMisses (hits : List FundRes) (misses : List NItem)
    (env : NItem → MissSpec) (per dl : Nat) : AggOutcome :=
  let vals := misses.map (fun i => taskValue per i (env i))
  let allSettledAt := (misses.map (fun i => taskSettleTime per (env i))).foldl max 0
  let writes := misses.filterMap (fun i => taskCacheWrite per i (env i))
  if allSettledAt ≤ dl then
    let final := hits ++ vals
    if final.any (fun r => r.ok) then ⟨.success final, allSettledAt, writes⟩
    else ⟨.batchFailure "Failed to fetch fundamentals" final, allSettledAt, writes⟩
  else
    let partialSet := hits ++ vals
    if partialSet.any (fun r => r.ok) then ⟨.success partialSet, max dl allSettledAt, writes⟩
    else ⟨.batchFailure "Timed out fetching fundamentals" partialSet, max dl allSettledAt, writes⟩

/-- Outcome of the whole deadline route on already-normalized items. -/
structure RouteOutcome where
  response : BatchResponse FundRes
  readyAt : Nat
  cacheWrites : List (String × Fund)
  refreshes : List String
deriving Repr

/-- The deadline-bounded fundamentals route, after normalization:
deduplicate, partition against the per-symbol cache, return hits
immediately if nothing is missing, otherwise run the deadline-raced miss
fan-out. -/
def fundamentalsRoute (cache : FundCache) (items : List NItem)
    (env : NItem → MissSpec) (dlQ perQ : Nat) : RouteOutcome :=
  let dl := clampDeadline dlQ
  let per := clampPerTimeout perQ dl
  let uniq := uniqItems items
  let (hits, refr, misses) := partitionHits cache uniq
  if misses.isEmpty then ⟨.success hits, 0, [], refr⟩
  else
    let a := aggregateMisses hits misses env per dl
    ⟨a.response, a.readyAt, a.cacheWrites, refr⟩

/-- The full deadline route including `normalizeForGoogle` over raw
items (resolver caches threaded in item order). -/
def fundamentalsDeadlineRoute (renv : ResolverEnv) (scrapeEnv : NItem → MissSpec)
    (symCache : SymbolCache) (rcache : ResolveCache) (fundCache : FundCache)
    (items : List RawItem) (dlQ perQ : Nat) :
    RouteOutcome × SymbolCache × ResolveCache :=
  let (nitems, sc', rc') := normalizeAll renv symCache rcache items
  (fundamentalsRoute fundCache nitems scrapeEnv dlQ perQ, sc', rc')

/-! ## Lemmas: the JS string order -/

theorem charsLe_total (a b : List Char) : (charsLe a b || charsLe b a) = true := by
  induction a generalizing b with
  | nil => simp [charsLe]
  | cons x xs ih =>
    cases b with
    | nil => simp [charsLe]
    | cons y ys =>
      by_cases h1 : x < y
      · simp [charsLe, h1]
      · by_cases h2 : y < x
        · simp [charsLe, h1, h2]
        · simpa [charsLe, h1, h2] using ih ys

theorem charsLe_trans (a b c : List Char) (hab : charsLe a b = true)
    (hbc : charsLe b c = true) : charsLe a c = true := by
  induction a generalizing b c with
  | nil => simp [charsLe]
  | cons x xs ih =>
    cases b with
    | nil => simp [charsLe] at hab
    | cons y ys =>
      cases c with
      | nil => simp [charsLe] at hbc
      | cons z zs =>
        by_cases hxy : x < y
        · by_cases hyz : y < z
          · simp [charsLe, lt_trans hxy hyz]
          · by_cases hzy : z < y
            · simp [charsLe, hxy, hyz, hzy] at hbc
            · have hyz' : y = z := le_antisymm (le_of_not_lt hzy) (le_of_not_lt hyz)
              subst hyz'
              simp [charsLe, hxy]
        · by_cases hyx : y < x
          · simp [charsLe, hxy, hyx] at hab
          · have hxy' : x = y := le_antisymm (le_of_not_lt hyx) (le_of_not_lt hxy)
            subst hxy'
            by_cases hyz : x < z
            · simp [charsLe, hyz]
            · by_cases hzy : z < x
              · simp [charsLe, hyz, hzy] at hbc
              · simp only [charsLe, if_neg hxy, if_neg hyx, if_neg hyz, if_neg hzy] at *
                exact ih ys zs hab hbc

theorem charsLe_antisymm (a b : List Char) (hab : charsLe a b = true)
    (hba : charsLe b a = true) : a = b := by
  induction a generalizing b with
  | nil =>
    cases b with
    | nil => rfl
    | cons y ys => simp [charsLe] at hba
  | cons x xs ih =>
    cases b with
    | nil => simp [charsLe] at hab
    | cons y ys =>
      by_cases hxy : x < y
      · simp [charsLe, hxy, asymm hxy] at hba
      · by_cases hyx : y < x
        · simp [charsLe, hxy, hyx] at hab
        · have hxy' : x = y := le_antisymm (le_of_not_lt hyx) (le_of_not_lt hxy)
          subst hxy'
          simp only [charsLe, if_neg hxy, if_neg hyx] at hab hba
          exact congrArg (x :: ·) (ih ys hab hba)

theorem strLe_trans (a b c : String) (hab : strLe a b = true) (hbc : strLe b c = true) :
    strLe a c = true :=
  charsLe_trans a.data b.data c.data hab hbc

theorem strLe_total (a b : String) : (strLe a b || strLe b a) = true :=
  charsLe_total a.data b.data

theorem strLe_antisymm (a b : String) (hab : strLe a b = true) (hba : strLe b a = true) :
    a = b := by
  cases a with
  | mk da =>
    cases b with
    | mk db => exact congrArg String.mk (charsLe_antisymm da db hab hba)

theorem sortStrings_perm (l : List String) : (sortStrings l).Perm l :=
  List.mergeSort_perm l strLe

theorem sortStrings_sorted (l : List String) :
    List.Sorted (fun a b => strLe a b = true) (sortStrings l) :=
  @List.sorted_mergeSort String strLe (fun a b c => strLe_trans a b c)
    (fun a b => strLe_total a b) l

theorem sortStrings_eq_of_perm {xs ys : List String} (h : xs.Perm ys) :
    sortStrings xs = sortStrings ys :=
  @List.eq_of_perm_of_sorted String (fun a b => strLe a b = true)
    ⟨fun a b hab hba => strLe_antisymm a b hab hba⟩ _ _
    ((sortStrings_perm xs).trans (h.trans (sortStrings_perm ys).symm))
    (sortStrings_sorted xs) (sortStrings_sorted ys)

theorem batchKey_eq_of_perm {xs ys : List String} (h : xs.Perm ys) :
    batchKey xs = batchKey ys := by
  unfold batchKey
  rw [sortStrings_eq_of_perm h]

/-- Claim C8: the batch cache key is the join of the sorted canonical symbol
identifiers, so two input lists with the same items in different orders
produce the same key — and hence hit the same `quotesCache` slot within
the same batch window.  Stated both for raw symbol lists and for the
route's job lists mapped through `toYahoo`. -/
theorem claim_C8_batchKey_order_invariant (xs ys : List String) (h : xs.Perm ys) :
    batchKey xs = batchKey ys ∧
      (∀ cache : QuotesCache, jsMapLookup cache (batchKey xs) = jsMapLookup cache (batchKey ys)) ∧
      (∀ jobs jobs' : List Job, jobs.Perm jobs' →
        batchKey (jobs.map (fun j => toYahoo j.symbol j.exchange)) =
          batchKey (jobs'.map (fun j => toYahoo j.symbol j.exchange))) := by
  refine ⟨batchKey_eq_of_perm h, ?_, ?_⟩
  · intro cache
    rw [batchKey_eq_of_perm h]
  · intro jobs jobs' hj
    exact batchKey_eq_of_perm (hj.map _)

/-- Witness for C8 at a concrete pair of reordered symbol lists. -/
theorem claim_C8_witness :
    batchKey ["HDFCBANK.NS", "TCS.NS"] = batchKey ["TCS.NS", "HDFCBANK.NS"] :=
  (claim_C8_batchKey_order_invariant ["HDFCBANK.NS", "TCS.NS"] ["TCS.NS", "HDFCBANK.NS"]
    (by decide)).1

/-! ## Lemmas: JS `Map` association lists -/

theorem jsMapLookup_cons {α : Type} (p : String × α) (m : List (String × α)) (k : String) :
    jsMapLookup (p :: m) k = if p.1 = k then some p.2 else jsMapLookup m k := by
  by_cases h : p.1 = k <;> simp [jsMapLookup, List.find?_cons, h]

theorem jsMapLookup_append {α : Type} (m₁ m₂ : List (String × α)) (k : String) :
    jsMapLookup (m₁ ++ m₂) k =
      match jsMapLookup m₁ k with
      | some v => some v
      | none => jsMapLookup m₂ k := by
  induction m₁ with
  | nil => simp [jsMapLookup]
  | cons p m ih =>
    by_cases h : p.1 = k <;> simp [jsMapLookup_cons, h, ih]

theorem jsMapLookup_eq_none {α : Type} (m : List (String × α)) (k : String)
    (h : m.any (fun p => p.1 = k) ≠ true) : jsMapLookup m k = none := by
  induction m with
  | nil => rfl
  | cons p rest ih =>
    have hp : ¬p.1 = k := by
      intro he
      exact h (by simp [List.any_cons, he])
    have hrest : rest.any (fun p => p.1 = k) ≠ true := by
      intro he
      exact h (by simp [List.any_cons, he])
    simp [jsMapLookup_cons, hp, ih hrest]

theorem jsMapLookup_map_update {α : Type} (m : List (String × α)) (k : String) (v : α) :
    jsMapLookup (m.map (fun p => if p.1 = k then (k, v) else p)) k =
      if m.any (fun p => p.1 = k) then some v else none := by
  induction m with
  | nil => simp [jsMapLookup]
  | cons p rest ih =>
    by_cases h : p.1 = k
    · simp [jsMapLookup_cons, h]
    · have hd : (decide (p.1 = k)) = false := by simp [h]
      rw [List.map_cons, if_neg h, jsMapLookup_cons, if_neg h, ih,
        List.any_cons, hd, Bool.false_or]

theorem jsMapLookup_map_update_ne {α : Type} (m : List (String × α)) (k k' : String) (v : α)
    (h : k' ≠ k) :
    jsMapLookup (m.map (fun p => if p.1 = k then (k, v) else p)) k' = jsMapLookup m k' := by
  induction m with
  | nil => rfl
  | cons p rest ih =>
    by_cases hp : p.1 = k
    · have : k ≠ k' := fun hkk => h hkk.symm
      simp [jsMapLookup_cons, hp, this, ih]
    · simp [jsMapLookup_cons, hp, ih]

theorem jsMapSet_lookup_self {α : Type} (m : List (String × α)) (k : String) (v : α) :
    jsMapLookup (jsMapSet m k v) k = some v := by
  unfold jsMapSet
  by_cases h : m.any (fun p => p.1 = k)
  · simp [h, jsMapLookup_map_update]
  · rw [if_neg h, jsMapLookup_append, jsMapLookup_eq_none m k h]
    simp [jsMapLookup_cons]

theorem jsMapSet_lookup_ne {α : Type} (m : List (String × α)) (k k' : String) (v : α)
    (h : k' ≠ k) : jsMapLookup (jsMapSet m k v) k' = jsMapLookup m k' := by
  unfold jsMapSet
  by_cases hm : m.any (fun p => p.1 = k)
  · simp [hm, jsMapLookup_map_update_ne m k k' v h]
  · rw [if_neg hm, jsMapLookup_append]
    cases hmk : jsMapLookup m k' with
    | some w => simp
    | none =>
      have hk : ¬k = k' := fun hkk => h hkk.symm
      simp [jsMapLookup_cons, hk, jsMapLookup]

theorem jsMapSet_mem {α : Type} (m : List (String × α)) (k : String) (v : α)
    (p : String × α) (hp : p ∈ jsMapSet m k v) : p ∈ m ∨ p = (k, v) := by
  unfold jsMapSet at hp
  by_cases hm : m.any (fun p => p.1 = k)
  · rw [if_pos hm] at hp
    rcases List.mem_map.mp hp with ⟨q, hq, hqe⟩
    by_cases hqk : q.1 = k
    · right; simp [hqk] at hqe; exact hqe.symm
    · left; simp [hqk] at hqe; exact hqe ▸ hq
  · rw [if_neg hm] at hp
    rcases List.mem_append.mp hp with h | h
    · exact Or.inl h
    · right; simpa using h

theorem keysOf_jsMapSet {α : Type} (m : List (String × α)) (k : String) (v : α) :
    keysOf (jsMapSet m k v) =
      if m.any (fun p => p.1 = k) then keysOf m else keysOf m ++ [k] := by
  unfold jsMapSet keysOf
  by_cases hm : m.any (fun p => p.1 = k)
  · rw [if_pos hm, if_pos hm, List.map_map]
    refine List.map_congr_left ?_
    intro p _
    by_cases hp : p.1 = k <;> simp [hp]
  · rw [if_neg hm, if_neg hm]
    simp

theorem any_key_iff {α : Type} (m : List (String × α)) (k : String) :
    m.any (fun p => p.1 = k) = true ↔ k ∈ keysOf m := by
  simp [List.any_eq_true, keysOf, List.mem_map]

theorem mem_keysOf_jsMapSet {α : Type} (m : List (String × α)) (k k' : String) (v : α) :
    k' ∈ keysOf (jsMapSet m k v) ↔ k' ∈ keysOf m ∨ k' = k := by
  rw [keysOf_jsMapSet]
  by_cases hm : m.any (fun p => p.1 = k)
  · rw [if_pos hm]
    constructor
    · exact Or.inl
    · rintro (h | rfl)
      · exact h
      · exact (any_key_iff m k').mp hm
  · rw [if_neg hm]; simp

theorem nodup_keysOf_jsMapSet {α : Type} (m : List (String × α)) (k : String) (v : α)
    (h : (keysOf m).Nodup) : (keysOf (jsMapSet m k v)).Nodup := by
  rw [keysOf_jsMapSet]
  by_cases hm : m.any (fun p => p.1 = k)
  · rwa [if_pos hm]
  · rw [if_neg hm]
    have hk : k ∉ keysOf m := fun hmem => by
      rw [(any_key_iff m k).symm] at hmem
      exact absurd hmem (by simp [hm])
    simp [List.nodup_append, h, hk]

theorem jsMapSet_length {α : Type} (m : List (String × α)) (k : String) (v : α) :
    (jsMapSet m k v).length ≤ m.length + 1 := by
  unfold jsMapSet
  by_cases hm : m.any (fun p => p.1 = k) <;> simp [hm]

/-! ## Lemmas: the dedup `Map` reduce of the deadline route (C10) -/

theorem dedup_go_lookup (l : List NItem) :
    ∀ (acc : List (String × NItem)) (k : String),
      jsMapLookup (l.foldl (fun m i => jsMapSet m (nkey i) i) acc) k =
        match lastOcc k l with
        | some j => some j
        | none => jsMapLookup acc k := by
  induction l with
  | nil => intro acc k; simp [lastOcc]
  | cons i rest ih =>
    intro acc k
    show jsMapLookup (rest.foldl _ (jsMapSet acc (nkey i) i)) k = _
    rw [ih (jsMapSet acc (nkey i) i) k]
    cases hrest : lastOcc k rest with
    | some j => simp [lastOcc, hrest]
    | none =>
      by_cases hik : nkey i = k
      · subst hik
        simp [lastOcc, hrest, jsMapSet_lookup_self]
      · simp [lastOcc, hrest, hik, jsMapSet_lookup_ne acc (nkey i) k i (fun he => hik he.symm)]

theorem dedup_go_nodup (l : List NItem) :
    ∀ acc : List (String × NItem), (keysOf acc).Nodup →
      (keysOf (l.foldl (fun m i => jsMapSet m (nkey i) i) acc)).Nodup := by
  induction l with
  | nil => intro acc h; exact h
  | cons i rest ih =>
    intro acc h
    exact ih (jsMapSet acc (nkey i) i) (nodup_keysOf_jsMapSet acc (nkey i) i h)

theorem dedup_go_mem (l : List NItem) :
    ∀ (acc : List (String × NItem)) (k : String),
      k ∈ keysOf (l.foldl (fun m i => jsMapSet m (nkey i) i) acc) ↔
        k ∈ keysOf acc ∨ ∃ i ∈ l, nkey i = k := by
  induction l with
  | nil => intro acc k; simp
  | cons i rest ih =>
    intro acc k
    show k ∈ keysOf (rest.foldl _ (jsMapSet acc (nkey i) i)) ↔ _
    rw [ih (jsMapSet acc (nkey i) i) k, mem_keysOf_jsMapSet]
    constructor
    · rintro ((h | rfl) | ⟨j, hj, he⟩)
      · exact Or.inl h
      · exact Or.inr ⟨i, by simp⟩
      · exact Or.inr ⟨j, by simp [hj], he⟩
    · rintro (h | ⟨j, hj, he⟩)
      · exact Or.inl (Or.inl h)
      · rcases List.mem_cons.mp hj with rfl | hj'
        · exact Or.inl (Or.inr he.symm)
        · exact Or.inr ⟨j, hj', he⟩

theorem dedup_go_pairs (l : List NItem) :
    ∀ acc : List (String × NItem), (∀ p ∈ acc, nkey p.2 = p.1) →
      ∀ p ∈ l.foldl (fun m i => jsMapSet m (nkey i) i) acc, nkey p.2 = p.1 := by
  induction l with
  | nil => intro acc h; exact h
  | cons i rest ih =>
    intro acc h
    refine ih (jsMapSet acc (nkey i) i) ?_
    intro p hp
    rcases jsMapSet_mem acc (nkey i) i p hp with hin | rfl
    · exact h p hin
    · rfl

theorem dedup_go_length (l : List NItem) :
    ∀ acc : List (String × NItem),
      (l.foldl (fun m i => jsMapSet m (nkey i) i) acc).length ≤ acc.length + l.length := by
  induction l with
  | nil => intro acc; simp
  | cons i rest ih =>
    intro acc
    calc (rest.foldl _ (jsMapSet acc (nkey i) i)).length
        ≤ (jsMapSet acc (nkey i) i).length + rest.length := ih _
      _ ≤ (acc.length + 1) + rest.length :=
          Nat.add_le_add_right (jsMapSet_length acc (nkey i) i) _
      _ = acc.length + (i :: rest).length := by simp [Nat.add_comm, Nat.add_assoc,
          Nat.add_left_comm]

theorem dedup_keys_nodup (l : List NItem) : (keysOf (dedupByKey l)).Nodup :=
  dedup_go_nodup l [] (by simp [keysOf])

theorem dedup_pairs (l : List NItem) : ∀ p ∈ dedupByKey l, nkey p.2 = p.1 :=
  dedup_go_pairs l [] (by simp)

theorem dedup_lookup (l : List NItem) (k : String) :
    jsMapLookup (dedupByKey l) k = lastOcc k l := by
  rw [dedupByKey, dedup_go_lookup l [] k]
  cases lastOcc k l <;> simp [jsMapLookup]

theorem dedup_mem_keys (l : List NItem) (k : String) :
    k ∈ keysOf (dedupByKey l) ↔ ∃ i ∈ l, nkey i = k := by
  rw [dedupByKey, dedup_go_mem l [] k]
  simp [keysOf]

theorem uniqItems_length_le (l : List NItem) : (uniqItems l).length ≤ l.length := by
  have := dedup_go_length l []
  simpa [uniqItems, dedupByKey] using this

/-- Claim C10: the deadline-bounded fundamentals route deduplicates its
input by the canonical `symbol:exchange` key before partitioning: the
dedup map has pairwise-distinct keys, holds exactly the keys occurring
in the input, stores for each key the LAST input item carrying it, and
the deduplicated list is never longer than the input. -/
theorem claim_C10_dedup_by_key (l : List NItem) :
    (keysOf (dedupByKey l)).Nodup ∧
      (∀ p ∈ dedupByKey l, nkey p.2 = p.1) ∧
      (∀ k, jsMapLookup (dedupByKey l) k = lastOcc k l) ∧
      (∀ k, k ∈ keysOf (dedupByKey l) ↔ ∃ i ∈ l, nkey i = k) ∧
      (uniqItems l).length ≤ l.length :=
  ⟨dedup_keys_nodup l, dedup_pairs l, dedup_lookup l, dedup_mem_keys l,
    uniqItems_length_le l⟩

/-- Witness for C10: a duplicate-key input list collapses to one entry
per distinct key, with the later duplicate winning, and is strictly
shorter than the input. -/
theorem claim_C10_witness :
    jsMapLookup (dedupByKey [⟨"A", Exchange.BOM⟩, ⟨"B", Exchange.NSE⟩, ⟨"A", Exchange.BOM⟩])
        "A:BOM" = some ⟨"A", Exchange.BOM⟩ ∧
      (uniqItems [⟨"A", Exchange.BOM⟩, ⟨"B", Exchange.NSE⟩, ⟨"A", Exchange.BOM⟩]).length ≤ 3 ∧
      uniqItems [⟨"A", Exchange.BOM⟩, ⟨"B", Exchange.NSE⟩, ⟨"A", Exchange.BOM⟩] =
        [⟨"A", Exchange.BOM⟩, ⟨"B", Exchange.NSE⟩] := by
  refine ⟨?_, ?_, by decide⟩
  · rw [(claim_C10_dedup_by_key [⟨"A", Exchange.BOM⟩, ⟨"B", Exchange.NSE⟩,
      ⟨"A", Exchange.BOM⟩]).2.2.1 "A:BOM"]
    decide
  · exact (claim_C10_dedup_by_key [⟨"A", Exchange.BOM⟩, ⟨"B", Exchange.NSE⟩,
      ⟨"A", Exchange.BOM⟩]).2.2.2.2

/-! ## Lemmas: the hits/misses loop (C9) -/

theorem partitionHits_cons (cache : FundCache) (i : NItem) (rest : List NItem) :
    partitionHits cache (i :: rest) =
      match jsMapLookup cache (nkey i) with
      | some e =>
        (hitRes e.value :: (partitionHits cache rest).1,
          (if e.remainingTTL ≤ 0 then [nkey i] else []) ++ (partitionHits cache rest).2.1,
          (partitionHits cache rest).2.2)
      | none =>
        ((partitionHits cache rest).1, (partitionHits cache rest).2.1,
          i :: (partitionHits cache rest).2.2) := by
  cases h : jsMapLookup cache (nkey i) <;> simp [partitionHits, h]

theorem partitionHits_miss_mem (cache : FundCache) (l : List NItem) :
    ∀ j ∈ (partitionHits cache l).2.2, jsMapLookup cache (nkey j) = none ∧ j ∈ l := by
  induction l with
  | nil => intro j hj; simp [partitionHits] at hj
  | cons i rest ih =>
    intro j hj
    rw [partitionHits_cons] at hj
    cases h : jsMapLookup cache (nkey i) with
    | some e =>
      rw [h] at hj
      rcases ih j hj with ⟨h1, h2⟩
      exact ⟨h1, List.mem_cons_of_mem i h2⟩
    | none =>
      rw [h] at hj
      rcases List.mem_cons.mp hj with rfl | hj'
      · exact ⟨h, List.mem_cons_self j rest⟩
      · rcases ih j hj' with ⟨h1, h2⟩
        exact ⟨h1, List.mem_cons_of_mem i h2⟩

theorem partitionHits_hit_mem (cache : FundCache) (l : List NItem) (i : NItem) (e : FundEntry)
    (hin : i ∈ l) (hlook : jsMapLookup cache (nkey i) = some e) :
    hitRes e.value ∈ (partitionHits cache l).1 := by
  induction l with
  | nil => simp at hin
  | cons j rest ih =>
    rw [partitionHits_cons]
    rcases List.mem_cons.mp hin with rfl | hin'
    · rw [hlook]
      exact List.mem_cons_self _ _
    · cases h : jsMapLookup cache (nkey j) with
      | some e' => exact List.mem_cons_of_mem _ (ih hin')
      | none => exact ih hin'

theorem partitionHits_refresh_count_le (cache : FundCache) (l : List NItem) (k : String) :
    (partitionHits cache l).2.1.count k ≤ (l.map nkey).count k := by
  induction l with
  | nil => simp [partitionHits]
  | cons i rest ih =>
    rw [partitionHits_cons]
    cases h : jsMapLookup cache (nkey i) with
    | some e =>
      show List.count k ((if e.remainingTTL ≤ 0 then [nkey i] else []) ++
        (partitionHits cache rest).2.1) ≤ _
      rw [List.count_append, List.map_cons, List.count_cons]
      have hone : List.count k (if e.remainingTTL ≤ 0 then [nkey i] else []) ≤
          if (nkey i == k) = true then 1 else 0 := by
        by_cases hc : e.remainingTTL ≤ 0
        · rw [if_pos hc, List.count_singleton]
        · rw [if_neg hc]
          simp
      have := Nat.add_le_add hone ih
      rw [Nat.add_comm (List.count k (rest.map nkey))]
      exact le_trans (by rw [Nat.add_comm] at this ⊢; exact this) (le_refl _)
    | none =>
      show List.count k (partitionHits cache rest).2.1 ≤ _
      rw [List.map_cons]
      exact le_trans ih (List.count_le_count_cons k (nkey i) _)

theorem partitionHits_refresh_count_ge (cache : FundCache) (l : List NItem) (i : NItem)
    (e : FundEntry) (hin : i ∈ l) (hlook : jsMapLookup cache (nkey i) = some e)
    (hstale : e.remainingTTL ≤ 0) :
    1 ≤ (partitionHits cache l).2.1.count (nkey i) := by
  induction l with
  | nil => simp at hin
  | cons j rest ih =>
    rw [partitionHits_cons]
    rcases List.mem_cons.mp hin with rfl | hin'
    · rw [hlook]
      show 1 ≤ List.count (nkey i) ((if e.remainingTTL ≤ 0 then [nkey i] else []) ++
        (partitionHits cache rest).2.1)
      rw [if_pos hstale, List.singleton_append, List.count_cons_self]
      omega
    · cases h : jsMapLookup cache (nkey j) with
      | some e' =>
        show 1 ≤ List.count (nkey i) ((if e'.remainingTTL ≤ 0 then [nkey j] else []) ++
          (partitionHits cache rest).2.1)
        rw [List.count_append]
        have := ih hin'
        omega
      | none => exact ih hin'

theorem uniq_keys_eq (l : List NItem) : (uniqItems l).map nkey = keysOf (dedupByKey l) := by
  unfold uniqItems keysOf
  rw [List.map_map]
  exact List.map_congr_left (fun p hp => dedup_pairs l p hp)

theorem uniq_keys_nodup (l : List NItem) : ((uniqItems l).map nkey).Nodup := by
  rw [uniq_keys_eq]
  exact dedup_keys_nodup l

/-- Claim C9: a cache entry past its TTL but still retained (stale read
allowance) is returned synchronously as an `ok:true` hit, fires exactly
one background refresh for its key, and is never treated as a miss; and
when every requested key is cached the route's response is produced at
time 0 from the cache alone — it does not depend on the scrape
environment at all, so the caller is never blocked on a refresh. -/
theorem claim_C9_stale_while_revalidate (cache : FundCache) (items : List NItem)
    (dlQ perQ : Nat) (i : NItem) (e : FundEntry)
    (hlook : jsMapLookup cache (nkey i) = some e)
    (hstale : e.remainingTTL ≤ 0)
    (hin : i ∈ uniqItems items) :
    hitRes e.value ∈ (partitionHits cache (uniqItems items)).1 ∧
      (partitionHits cache (uniqItems items)).2.1.count (nkey i) = 1 ∧
      i ∉ (partitionHits cache (uniqItems items)).2.2 ∧
      ((partitionHits cache (uniqItems items)).2.2 = [] →
        ∀ env env' : NItem → MissSpec,
          fundamentalsRoute cache items env dlQ perQ =
              fundamentalsRoute cache items env' dlQ perQ ∧
            (fundamentalsRoute cache items env dlQ perQ).response =
              .success (partitionHits cache (uniqItems items)).1 ∧
            (fundamentalsRoute cache items env dlQ perQ).readyAt = 0) := by
  refine ⟨partitionHits_hit_mem cache _ i e hin hlook, ?_, ?_, ?_⟩
  · have hge := partitionHits_refresh_count_ge cache (uniqItems items) i e hin hlook hstale
    have hle := partitionHits_refresh_count_le cache (uniqItems items) (nkey i)
    have hnd : ((uniqItems items).map nkey).count (nkey i) ≤ 1 :=
      List.nodup_iff_count_le_one.mp (uniq_keys_nodup items) (nkey i)
    omega
  · intro hmem
    rcases partitionHits_miss_mem cache (uniqItems items) i hmem with ⟨hnone, _⟩
    rw [hlook] at hnone
    exact Option.noConfusion hnone
  · intro hmiss env env'
    have hroute : ∀ env₀ : NItem → MissSpec,
        fundamentalsRoute cache items env₀ dlQ perQ =
          ⟨.success (partitionHits cache (uniqItems items)).1, 0, [],
            (partitionHits cache (uniqItems items)).2.1⟩ := by
      intro env₀
      unfold fundamentalsRoute
      rw [show (partitionHits cache (uniqItems items)) =
        ((partitionHits cache (uniqItems items)).1,
          (partitionHits cache (uniqItems items)).2.1,
          (partitionHits cache (uniqItems items)).2.2) from rfl]
      simp [hmiss]
    rw [hroute env, hroute env']
    exact ⟨rfl, rfl, rfl⟩

/-- Witness for C9 at a concrete stale cache entry. -/
theorem claim_C9_witness :
    hitRes ⟨"A", Exchange.BOM, some 12, some 3⟩ ∈
        (partitionHits [("A:BOM", ⟨⟨"A", Exchange.BOM, some 12, some 3⟩, -1⟩)]
          (uniqItems [⟨"A", Exchange.BOM⟩])).1 ∧
      (partitionHits [("A:BOM", ⟨⟨"A", Exchange.BOM, some 12, some 3⟩, -1⟩)]
          (uniqItems [⟨"A", Exchange.BOM⟩])).2.1.count "A:BOM" = 1 := by
  have h := claim_C9_stale_while_revalidate
    [("A:BOM", ⟨⟨"A", Exchange.BOM, some 12, some 3⟩, -1⟩)]
    [⟨"A", Exchange.BOM⟩] 7000 6000 ⟨"A", Exchange.BOM⟩
    ⟨⟨"A", Exchange.BOM, some 12, some 3⟩, -1⟩ (by decide) (by decide) (by decide)
  exact ⟨h.1, h.2.1⟩

/-! ## Lemmas: the deadline-raced aggregator (C2, C1) -/

theorem foldl_max_le (l : List Nat) (b : Nat) :
    ∀ init, init ≤ b → (∀ x ∈ l, x ≤ b) → l.foldl max init ≤ b := by
  induction l with
  | nil => intro init hi _; simpa using hi
  | cons x xs ih =>
    intro init hi h
    exact ih (max init x) (max_le hi (h x (List.mem_cons_self x xs)))
      (fun y hy => h y (List.mem_cons_of_mem x hy))

theorem taskSettleTime_le (per : Nat) (m : MissSpec) : taskSettleTime per m ≤ per :=
  Nat.min_le_right _ _

theorem aggregate_allSettled_le (misses : List NItem) (env : NItem → MissSpec)
    (per dl : Nat) (hper : per ≤ dl) :
    (misses.map (fun i => taskSettleTime per (env i))).foldl max 0 ≤ dl := by
  refine foldl_max_le _ dl 0 (Nat.zero_le dl) ?_
  intro x hx
  rcases List.mem_map.mp hx with ⟨i, _, rfl⟩
  exact le_trans (taskSettleTime_le per (env i)) hper

theorem aggregate_response_eq (hits : List FundRes) (misses : List NItem)
    (env : NItem → MissSpec) (per dl : Nat) (hper : per ≤ dl) :
    (aggregateMisses hits misses env per dl).response =
      (if (hits ++ misses.map (fun i => taskValue per i (env i))).any (fun r => r.ok) then
        BatchResponse.success (hits ++ misses.map (fun i => taskValue per i (env i)))
      else
        BatchResponse.batchFailure "Failed to fetch fundamentals"
          (hits ++ misses.map (fun i => taskValue per i (env i)))) := by
  unfold aggregateMisses
  rw [if_pos (aggregate_allSettled_le misses env per dl hper)]
  by_cases h : (hits ++ misses.map (fun i => taskValue per i (env i))).any (fun r => r.ok) <;>
    simp [h]

theorem aggregate_readyAt_le (hits : List FundRes) (misses : List NItem)
    (env : NItem → MissSpec) (per dl : Nat) (hper : per ≤ dl) :
    (aggregateMisses hits misses env per dl).readyAt ≤ dl := by
  unfold aggregateMisses
  rw [if_pos (aggregate_allSettled_le misses env per dl hper)]
  by_cases h : (hits ++ misses.map (fun i => taskValue per i (env i))).any (fun r => r.ok) <;>
    simpa [h] using aggregate_allSettled_le misses env per dl hper

theorem aggregate_writes_eq (hits : List FundRes) (misses : List NItem)
    (env : NItem → MissSpec) (per dl : Nat) :
    (aggregateMisses hits misses env per dl).cacheWrites =
      misses.filterMap (fun i => taskCacheWrite per i (env i)) := by
  unfold aggregateMisses
  by_cases h1 : (misses.map (fun i => taskSettleTime per (env i))).foldl max 0 ≤ dl <;>
    by_cases h2 : (hits ++ misses.map (fun i => taskValue per i (env i))).any (fun r => r.ok) <;>
      simp [h1, h2]

theorem aggregate_success_iff (hits : List FundRes) (misses : List NItem)
    (env : NItem → MissSpec) (per dl : Nat) (hper : per ≤ dl) :
    ((aggregateMisses hits misses env per dl).response =
        .success (hits ++ misses.map (fun i => taskValue per i (env i)))) ↔
      (hits ++ misses.map (fun i => taskValue per i (env i))).any (fun r => r.ok) = true := by
  rw [aggregate_response_eq hits misses env per dl hper]
  by_cases h : (hits ++ misses.map (fun i => taskValue per i (env i))).any (fun r => r.ok) <;>
    simp [h]

theorem aggregate_failure_iff (hits : List FundRes) (misses : List NItem)
    (env : NItem → MissSpec) (per dl : Nat) (hper : per ≤ dl) :
    (∃ msg, (aggregateMisses hits misses env per dl).response =
        .batchFailure msg (hits ++ misses.map (fun i => taskValue per i (env i)))) ↔
      (hits ++ misses.map (fun i => taskValue per i (env i))).any (fun r => r.ok) = false := by
  rw [aggregate_response_eq hits misses env per dl hper]
  by_cases h : (hits ++ misses.map (fun i => taskValue per i (env i))).any (fun r => r.ok) <;>
    simp [h]

theorem task_congr (per : Nat) (i : NItem) (m m' : MissSpec)
    (h1 : m'.scrapeTime = m.scrapeTime)
    (h2 : m.scrapeTime ≤ per → m'.scrapeOutcome = m.scrapeOutcome) :
    taskValue per i m' = taskValue per i m ∧
      taskSettleTime per m' = taskSettleTime per m ∧
      taskCacheWrite per i m' = taskCacheWrite per i m := by
  refine ⟨?_, ?_, ?_⟩
  · unfold taskValue
    by_cases hle : m.scrapeTime ≤ per
    · rw [if_pos hle, if_pos (h1 ▸ hle), h2 hle]
    · rw [if_neg hle, if_neg (h1 ▸ hle)]
  · unfold taskSettleTime
    rw [h1]
  · unfold taskCacheWrite
    by_cases hle : m.scrapeTime ≤ per
    · rw [if_pos hle, if_pos (h1 ▸ hle), h2 hle]
    · rw [if_neg hle, if_neg (h1 ▸ hle)]

theorem aggregate_env_congr (hits : List FundRes) (misses : List NItem)
    (env env' : NItem → MissSpec) (per dl : Nat)
    (h : ∀ i ∈ misses, (env' i).scrapeTime = (env i).scrapeTime ∧
      ((env i).scrapeTime ≤ per → (env' i).scrapeOutcome = (env i).scrapeOutcome)) :
    aggregateMisses hits misses env per dl = aggregateMisses hits misses env' per dl := by
  unfold aggregateMisses
  have hv : misses.map (fun i => taskValue per i (env i)) =
      misses.map (fun i => taskValue per i (env' i)) :=
    List.map_congr_left (fun i hi => ((task_congr per i (env i) (env' i)
      (h i hi).1 (h i hi).2).1).symm)
  have hs : misses.map (fun i => taskSettleTime per (env i)) =
      misses.map (fun i => taskSettleTime per (env' i)) :=
    List.map_congr_left (fun i hi => ((task_congr per i (env i) (env' i)
      (h i hi).1 (h i hi).2).2.1).symm)
  have hw : misses.filterMap (fun i => taskCacheWrite per i (env i)) =
      misses.filterMap (fun i => taskCacheWrite per i (env' i)) := by
    refine List.filterMap_congr ?_
    intro i hi
    exact ((task_congr per i (env i) (env' i) (h i hi).1 (h i hi).2).2.2).symm
  rw [hv, hs, hw]

/-- Claim C2, amended.  The aggregator of the deadline route: the per-item
timeout is clamped to the deadline; every task settles within the
per-item timeout (so `Promise.allSettled` wins the race and the response
is produced no later than the deadline); the response is a success iff
the merged hits-plus-task-values array has an `ok:true` entry and a 502
otherwise; a task whose underlying scrape outlasts the per-item timeout
contributes an `ok:false` "scrape timeout" entry and performs NO cache
write — contrary to the claim's "any task completing late updates the
cache", a late completion updates neither the cache nor the response:
the outcome is unchanged under any replacement of the late task's
result. -/
theorem claim_C2_deadline_bounded_aggregator (hits : List FundRes) (misses : List NItem)
    (env : NItem → MissSpec) (cache : FundCache) (items : List NItem)
    (dlQ perQ dl per : Nat) (_hdl : dl = clampDeadline dlQ)
    (hper : per = clampPerTimeout perQ dl) :
    per ≤ dl ∧
      (aggregateMisses hits misses env per dl).readyAt ≤ dl ∧
      (fundamentalsRoute cache items env dlQ perQ).readyAt ≤ clampDeadline dlQ ∧
      (((aggregateMisses hits misses env per dl).response =
          .success (hits ++ misses.map (fun i => taskValue per i (env i)))) ↔
        (hits ++ misses.map (fun i => taskValue per i (env i))).any (fun r => r.ok) = true) ∧
      ((∃ msg, (aggregateMisses hits misses env per dl).response =
          .batchFailure msg (hits ++ misses.map (fun i => taskValue per i (env i)))) ↔
        (hits ++ misses.map (fun i => taskValue per i (env i))).any (fun r => r.ok) = false) ∧
      (∀ i ∈ misses, taskSettleTime per (env i) ≤ per) ∧
      (∀ i ∈ misses, per < (env i).scrapeTime →
        taskCacheWrite per i (env i) = none ∧
          taskValue per i (env i) = errRes i "scrape timeout") ∧
      (∀ env' : NItem → MissSpec,
        (∀ i ∈ misses, (env' i).scrapeTime = (env i).scrapeTime ∧
          ((env i).scrapeTime ≤ per → (env' i).scrapeOutcome = (env i).scrapeOutcome)) →
        aggregateMisses hits misses env per dl = aggregateMisses hits misses env' per dl) := by
  have hpd : per ≤ dl := by
    rw [hper]
    exact Nat.min_le_right _ _
  refine ⟨hpd, aggregate_readyAt_le hits misses env per dl hpd, ?_,
    aggregate_success_iff hits misses env per dl hpd,
    aggregate_failure_iff hits misses env per dl hpd,
    fun i _ => taskSettleTime_le per (env i), ?_, ?_⟩
  · rcases hP : partitionHits cache (uniqItems items) with ⟨hs, rs, ms⟩
    by_cases hm : ms.isEmpty
    · simp [fundamentalsRoute, hP, hm]
    · simp only [fundamentalsRoute, hP, hm, Bool.false_eq_true, if_false]
      exact aggregate_readyAt_le _ _ env _ _ (Nat.min_le_right _ _)
  · intro i _ hlate
    have hnle : ¬(env i).scrapeTime ≤ per := Nat.not_le_of_lt hlate
    exact ⟨by unfold taskCacheWrite; rw [if_neg hnle],
      by unfold taskValue; rw [if_neg hnle]⟩
  · intro env' h
    exact aggregate_env_congr hits misses env env' per dl h

/-- Witness for C2 (amended) at a concrete batch: one fast miss settles
within the clamped per-item timeout and the aggregator responds by the
deadline with its `ok:true` value. -/
theorem claim_C2_witness :
    (aggregateMisses [] [⟨"A", Exchange.BOM⟩]
        (fun _ => ⟨100, .ok ⟨"A", Exchange.BOM, some 10, some 2⟩⟩) 6000 7000).readyAt ≤ 7000 ∧
      (aggregateMisses [] [⟨"A", Exchange.BOM⟩]
          (fun _ => ⟨100, .ok ⟨"A", Exchange.BOM, some 10, some 2⟩⟩) 6000 7000).response =
        .success [okRes ⟨"A", Exchange.BOM, some 10, some 2⟩] := by
  have h := claim_C2_deadline_bounded_aggregator []
    [⟨"A", Exchange.BOM⟩] (fun _ => ⟨100, .ok ⟨"A", Exchange.BOM, some 10, some 2⟩⟩)
    [] [] 7000 6000 7000 6000 (by decide) (by decide)
  refine ⟨h.2.1, ?_⟩
  have hs := h.2.2.2.1
  exact hs.mpr (by decide)

/-- Claim C2, counterexample to the claim as stated.  One miss whose
underlying scrape succeeds only after the per-item timeout (10 s scrape,
5 s timeout, 7 s deadline): the claim asserts the late completion "is
cached for future requests"; in the code the `.then` that stores the
value hangs off the already-rejected `withTimeout` race, so the write
never happens — the route performs no cache write at all, and the item
is reported as an `ok:false` scrape timeout. -/
theorem claim_C2_counterexample :
    (fundamentalsRoute [] [⟨"500325", Exchange.BOM⟩]
        (fun _ => ⟨10000, .ok ⟨"500325", Exchange.BOM, some 25, some 90⟩⟩)
        7000 5000).cacheWrites = [] ∧
      ¬(("500325:BOM", (⟨"500325", Exchange.BOM, some 25, some 90⟩ : Fund)) ∈
        (fundamentalsRoute [] [⟨"500325", Exchange.BOM⟩]
          (fun _ => ⟨10000, .ok ⟨"500325", Exchange.BOM, some 25, some 90⟩⟩)
          7000 5000).cacheWrites) ∧
      (fundamentalsRoute [] [⟨"500325", Exchange.BOM⟩]
          (fun _ => ⟨10000, .ok ⟨"500325", Exchange.BOM, some 25, some 90⟩⟩)
          7000 5000).response =
        .batchFailure "Failed to fetch fundamentals"
          [errRes ⟨"500325", Exchange.BOM⟩ "scrape timeout"] := by
  refine ⟨by decide, ?_, by decide⟩
  intro hmem
  have : (fundamentalsRoute [] [⟨"500325", Exchange.BOM⟩]
      (fun _ => ⟨10000, .ok ⟨"500325", Exchange.BOM, some 25, some 90⟩⟩)
      7000 5000).cacheWrites = [] := by decide
  rw [this] at hmem
  exact List.not_mem_nil _ hmem

/-- Claim C1: per-item failures surface as `ok:false` entries inside the
merged result array — a thrown Google fetch, a not-`ok` Google result
and an exhausted Yahoo retry all map to entries, never past the
aggregation boundary — and a batch is reported as a 502 batch failure
iff the merged array contains zero `ok:true` entries, for the prices
route and for the fundamentals aggregator alike. -/
theorem claim_C1_batch_failure_iff_no_success (cache : QuotesCache) (jobs : List Job)
    (genv : String → Except String GoogleCmp) (yenv : String → Nat → QuoteAttempt) :
    ((pricesRoute cache jobs genv yenv = .success (pricesFull cache jobs genv yenv)) ↔
        (pricesFull cache jobs genv yenv).any (fun r => r.ok) = true) ∧
      ((pricesRoute cache jobs genv yenv =
          .batchFailure "Failed to fetch prices" (pricesFull cache jobs genv yenv)) ↔
        (pricesFull cache jobs genv yenv).any (fun r => r.ok) = false) ∧
      (∀ (j : Job) (m : String), googleItemResult j (.error m) =
        ⟨false, j.symbol ++ ":BOM", none, none, "google", some m⟩) ∧
      (∀ (j : Job) (r : GoogleCmp), r.ok = false → googleItemResult j (.ok r) =
        ⟨false, j.symbol ++ ":BOM", none, none, "google",
          some "Google returned no price (page mismatch or no data)"⟩) ∧
      (∀ (s : String) (env : Nat → QuoteAttempt) (m : String),
        (getQuoteWithRetry env 3).result = .error m →
        yahooItemResult s env = ⟨false, s, none, none, "yahoo", some m⟩) ∧
      (∀ (hits : List FundRes) (misses : List NItem) (fenv : NItem → MissSpec) (per dl : Nat),
        per ≤ dl →
        (((aggregateMisses hits misses fenv per dl).response =
            .success (hits ++ misses.map (fun i => taskValue per i (fenv i)))) ↔
          (hits ++ misses.map (fun i => taskValue per i (fenv i))).any (fun r => r.ok) = true) ∧
        ((∃ msg, (aggregateMisses hits misses fenv per dl).response =
            .batchFailure msg (hits ++ misses.map (fun i => taskValue per i (fenv i)))) ↔
          (hits ++ misses.map (fun i => taskValue per i (fenv i))).any
            (fun r => r.ok) = false)) := by
  refine ⟨?_, ?_, fun j m => rfl, ?_, ?_, ?_⟩
  · unfold pricesRoute
    by_cases h : (pricesFull cache jobs genv yenv).any (fun r => r.ok) <;> simp [h]
  · unfold pricesRoute
    by_cases h : (pricesFull cache jobs genv yenv).any (fun r => r.ok) <;> simp [h]
  · intro j r hr
    simp [googleItemResult, hr]
  · intro s env m h
    unfold yahooItemResult
    rw [h]
  · intro hits misses fenv per dl hpd
    exact ⟨aggregate_success_iff hits misses fenv per dl hpd,
      aggregate_failure_iff hits misses fenv per dl hpd⟩

/-- Witness for C1: a two-job batch where the Google job fails and the
Yahoo job succeeds is returned as a success containing the `ok:false`
Google entry alongside the `ok:true` Yahoo entry. -/
theorem claim_C1_witness :
    pricesRoute [] [⟨Source.yahoo, "HDFCBANK", Exchange.NSE⟩, ⟨Source.google, "544107", Exchange.BSE⟩]
        (fun _ => .error "boom")
        (fun _ _ => .ok (some ⟨some "HDFCBANK.NS", some 1650, none, none, some "INR"⟩)) =
      .success (pricesFull [] [⟨Source.yahoo, "HDFCBANK", Exchange.NSE⟩,
        ⟨Source.google, "544107", Exchange.BSE⟩]
        (fun _ => .error "boom")
        (fun _ _ => .ok (some ⟨some "HDFCBANK.NS", some 1650, none, none, some "INR"⟩))) ∧
      googleItemResult ⟨Source.google, "544107", Exchange.BSE⟩ (.error "boom") =
        ⟨false, "544107:BOM", none, none, "google", some "boom"⟩ := by
  have h := claim_C1_batch_failure_iff_no_success []
    [⟨Source.yahoo, "HDFCBANK", Exchange.NSE⟩, ⟨Source.google, "544107", Exchange.BSE⟩]
    (fun _ => .error "boom")
    (fun _ _ => .ok (some ⟨some "HDFCBANK.NS", some 1650, none, none, some "INR"⟩))
  exact ⟨h.1.mpr (by decide), h.2.2.1 _ "boom"⟩

/-! ## Lemmas: the retry clients (C7) -/

theorem validAttempt_none_iff (a : QuoteAttempt) :
    validAttempt a = none ↔ (attemptErr a).isSome = true := by
  match a with
  | .error m => simp [validAttempt, attemptErr]
  | .ok none => simp [validAttempt, attemptErr]
  | .ok (some q) =>
    by_cases h : q.symbol = none ∧ q.regularMarketPrice = none <;>
      simp [validAttempt, attemptErr, h]

/-- Claim C7: the quote client retries up to 3 attempts (and the fundamentals
scraper up to 2 — both within the claimed 2–3 band); the backoff slept
after failed attempt `i` (0-based) is `(i+1) * base` (base 300 ms for
quotes, 250 ms for the scraper), i.e. linear in the attempt index; a
payload with neither an identifying symbol nor a price is consumed as a
retryable failure, not returned as a success; a valid payload returns
immediately; and after exhausting all attempts the LAST error propagates
and surfaces as the per-item `ok:false` entry. -/
theorem claim_C7_retry_with_linear_backoff (env : Nat → QuoteAttempt) (s : String)
    (senv : Nat → Except String Fund) :
    ((∀ i, i < 3 → (attemptErr (env i)).isSome = true) →
        (getQuoteWithRetry env 3).result = .error ((attemptErr (env 2)).getD "") ∧
          (getQuoteWithRetry env 3).delays = [300 * 1, 300 * 2, 300 * 3] ∧
          yahooItemResult s env =
            ⟨false, s, none, none, "yahoo", some ((attemptErr (env 2)).getD "")⟩) ∧
      (∀ q : Quote, env 0 = .ok (some q) → q.symbol = none → q.regularMarketPrice = none →
        getQuoteWithRetry env 3 =
          getQuoteWithRetryAux env 2 1 "Empty/invalid quote payload from Yahoo" [300 * 1]) ∧
      (∀ q : Quote, validAttempt (env 0) = some q →
        getQuoteWithRetry env 3 = ⟨.ok q, []⟩) ∧
      ((∀ i, i < 2 → ∃ m, senv i = .error m) →
        (scrapeFundamentalsRetry senv 2).delays = [250 * 1, 250 * 2] ∧
          ∀ m, senv 1 = .error m → (scrapeFundamentalsRetry senv 2).result = .error m) := by
  refine ⟨?_, ?_, ?_, ?_⟩
  · intro h
    have v0 : validAttempt (env 0) = none := (validAttempt_none_iff (env 0)).mpr (h 0 (by omega))
    have v1 : validAttempt (env 1) = none := (validAttempt_none_iff (env 1)).mpr (h 1 (by omega))
    have v2 : validAttempt (env 2) = none := (validAttempt_none_iff (env 2)).mpr (h 2 (by omega))
    obtain ⟨m2, hm2⟩ := Option.isSome_iff_exists.mp (h 2 (by omega))
    have hrun : getQuoteWithRetry env 3 =
        ⟨.error ((attemptErr (env 2)).getD ""), [300 * 1, 300 * 2, 300 * 3]⟩ := by
      unfold getQuoteWithRetry
      rw [getQuoteWithRetryAux, v0, getQuoteWithRetryAux, v1, getQuoteWithRetryAux, v2,
        getQuoteWithRetryAux]
      simp [hm2]
    refine ⟨by rw [hrun], by rw [hrun], ?_⟩
    unfold yahooItemResult
    rw [hrun]
  · intro q h0 hsym hprice
    have v0 : validAttempt (env 0) = none := by
      simp [validAttempt, h0, hsym, hprice]
    have e0 : attemptErr (env 0) = some "Empty/invalid quote payload from Yahoo" := by
      simp [attemptErr, h0, hsym, hprice]
    unfold getQuoteWithRetry
    rw [getQuoteWithRetryAux, v0, e0]
    simp
  · intro q hv
    unfold getQuoteWithRetry
    rw [getQuoteWithRetryAux, hv]
  · intro h
    obtain ⟨m0, hm0⟩ := h 0 (by omega)
    obtain ⟨m1, hm1⟩ := h 1 (by omega)
    have hrun : scrapeFundamentalsRetry senv 2 = ⟨.error m1, [250 * 1, 250 * 2]⟩ := by
      simp [scrapeFundamentalsRetry, scrapeRetryAux, hm0, hm1]
    refine ⟨by rw [hrun], ?_⟩
    intro m hm
    rw [hrun]
    rw [hm] at hm1
    cases hm1
    rfl

/-- Witness for C7: a concrete environment whose three attempts are a
thrown error, an empty payload, and an invalid payload — the run sleeps
300/600/900 ms and propagates the final invalid-payload error. -/
theorem claim_C7_witness :
    (getQuoteWithRetry
          (fun i => if i = 0 then .error "boom" else if i = 1 then .ok none
            else .ok (some ⟨none, none, some 5, none, none⟩)) 3).delays =
        [300 * 1, 300 * 2, 300 * 3] ∧
      (getQuoteWithRetry
          (fun i => if i = 0 then .error "boom" else if i = 1 then .ok none
            else .ok (some ⟨none, none, some 5, none, none⟩)) 3).result =
        .error "Empty/invalid quote payload from Yahoo" := by
  have h := (claim_C7_retry_with_linear_backoff
    (fun i => if i = 0 then .error "boom" else if i = 1 then .ok none
      else .ok (some ⟨none, none, some 5, none, none⟩)) "X.NS"
    (fun _ => .error "dead")).1 (by decide)
  exact ⟨h.2.1, by rw [h.1]; rfl⟩

/-! ## Lemmas: the search-and-score loop (C5) -/

theorem foldStep_isSome (best : Option Scored) (c : Candidate) : (foldStep best c).isSome := by
  match best with
  | none => rfl
  | some bb =>
    unfold foldStep
    by_cases h : scoreCandidate c > bb.score <;> simp [h]

theorem foldStep_ge (best : Option Scored) (c : Candidate) (b : Scored)
    (h : foldStep best c = some b) : scoreCandidate c ≤ b.score := by
  match best with
  | none =>
    cases h
    exact le_refl _
  | some bb =>
    rw [show foldStep (some bb) c =
      (if scoreCandidate c > bb.score then some ⟨c, scoreCandidate c⟩ else some bb) from rfl] at h
    by_cases hc : scoreCandidate c > bb.score
    · rw [if_pos hc] at h
      cases h
      exact le_refl _
    · rw [if_neg hc] at h
      cases h
      exact le_of_not_lt hc

theorem foldStep_mono (bb : Scored) (c : Candidate) (b : Scored)
    (h : foldStep (some bb) c = some b) : bb.score ≤ b.score := by
  rw [show foldStep (some bb) c =
    (if scoreCandidate c > bb.score then some ⟨c, scoreCandidate c⟩ else some bb) from rfl] at h
  by_cases hc : scoreCandidate c > bb.score
  · rw [if_pos hc] at h
    cases h
    exact le_of_lt hc
  · rw [if_neg hc] at h
    cases h
    exact le_refl _

theorem foldStep_origin (best : Option Scored) (c : Candidate) (b : Scored)
    (h : foldStep best c = some b) :
    best = some b ∨ (b.cand = c ∧ b.score = scoreCandidate c) := by
  match best with
  | none =>
    cases h
    exact Or.inr ⟨rfl, rfl⟩
  | some bb =>
    rw [show foldStep (some bb) c =
      (if scoreCandidate c > bb.score then some ⟨c, scoreCandidate c⟩ else some bb) from rfl] at h
    by_cases hc : scoreCandidate c > bb.score
    · rw [if_pos hc] at h
      cases h
      exact Or.inr ⟨rfl, rfl⟩
    · rw [if_neg hc] at h
      exact Or.inl h

theorem foldCandidates_mono (l : List Candidate) :
    ∀ (bb : Scored) (b : Scored), foldCandidates (some bb) l = some b → bb.score ≤ b.score := by
  induction l with
  | nil =>
    intro bb b h
    cases h
    exact le_refl _
  | cons c rest ih =>
    intro bb b h
    unfold foldCandidates at h
    cases hs : foldStep (some bb) c with
    | none => exact absurd (hs ▸ foldStep_isSome (some bb) c) (by simp)
    | some bb' =>
      rw [hs] at h
      exact le_trans (foldStep_mono bb c bb' hs) (ih bb' b h)

theorem foldCandidates_ge (l : List Candidate) :
    ∀ (best : Option Scored) (b : Scored), foldCandidates best l = some b →
      ∀ c ∈ l, scoreCandidate c ≤ b.score := by
  induction l with
  | nil => intro best b _ c hc; simp at hc
  | cons c0 rest ih =>
    intro best b h c hc
    unfold foldCandidates at h
    cases hs : foldStep best c0 with
    | none => exact absurd (hs ▸ foldStep_isSome best c0) (by simp)
    | some bb' =>
      rw [hs] at h
      rcases List.mem_cons.mp hc with rfl | hc'
      · exact le_trans (foldStep_ge best c bb' hs) (foldCandidates_mono rest bb' b h)
      · exact ih (some bb') b h c hc'

theorem foldCandidates_origin (l : List Candidate) :
    ∀ (best : Option Scored) (b : Scored), foldCandidates best l = some b →
      best = some b ∨ (b.cand ∈ l ∧ b.score = scoreCandidate b.cand) := by
  induction l with
  | nil =>
    intro best b h
    exact Or.inl h
  | cons c0 rest ih =>
    intro best b h
    unfold foldCandidates at h
    rcases ih (foldStep best c0) b h with hor | ⟨hm, hs⟩
    · rcases foldStep_origin best c0 b hor with h1 | ⟨h1, h2⟩
      · exact Or.inl h1
      · exact Or.inr ⟨by rw [h1]; exact List.mem_cons_self _ _, by rw [h1]; exact h2⟩
    · exact Or.inr ⟨List.mem_cons_of_mem c0 hm, hs⟩

theorem foldCandidates_none (l : List Candidate) :
    ∀ best : Option Scored, foldCandidates best l = none → best = none ∧ l = [] := by
  induction l with
  | nil => intro best h; exact ⟨h, rfl⟩
  | cons c rest ih =>
    intro best h
    unfold foldCandidates at h
    rcases ih (foldStep best c) h with ⟨h1, _⟩
    have := foldStep_isSome best c
    rw [h1] at this
    exact absurd this (by simp)

theorem searchAll_cons (env : String → List Candidate) (q : String) (qs : List String)
    (best : Option Scored) :
    searchAll env (q :: qs) best = searchAll env qs (foldCandidates best (env q)) := rfl

theorem searchAll_mono (env : String → List Candidate) (qs : List String) :
    ∀ (bb b : Scored), searchAll env qs (some bb) = some b → bb.score ≤ b.score := by
  induction qs with
  | nil =>
    intro bb b h
    cases h
    exact le_refl _
  | cons q rest ih =>
    intro bb b h
    rw [searchAll_cons] at h
    cases hs : foldCandidates (some bb) (env q) with
    | none => exact absurd (foldCandidates_none (env q) (some bb) hs).1 (by simp)
    | some bb' =>
      rw [hs] at h
      exact le_trans (foldCandidates_mono (env q) bb bb' hs) (ih bb' b h)

theorem searchAll_ge (env : String → List Candidate) (qs : List String) :
    ∀ (best : Option Scored) (b : Scored), searchAll env qs best = some b →
      ∀ q ∈ qs, ∀ c ∈ env q, scoreCandidate c ≤ b.score := by
  induction qs with
  | nil => intro best b _ q hq; simp at hq
  | cons q0 rest ih =>
    intro best b h q hq c hc
    rw [searchAll_cons] at h
    rcases List.mem_cons.mp hq with rfl | hq'
    · cases hs : foldCandidates best (env q) with
      | none =>
        rw [(foldCandidates_none (env q) best hs).2] at hc
        simp at hc
      | some bb' =>
        rw [hs] at h
        exact le_trans (foldCandidates_ge (env q) best bb' hs c hc)
          (searchAll_mono env rest bb' b h)
    · exact ih (foldCandidates best (env q0)) b h q hq' c hc

theorem searchAll_origin (env : String → List Candidate) (qs : List String) :
    ∀ (best : Option Scored) (b : Scored), searchAll env qs best = some b →
      best = some b ∨ ∃ q ∈ qs, b.cand ∈ env q ∧ b.score = scoreCandidate b.cand := by
  induction qs with
  | nil =>
    intro best b h
    exact Or.inl h
  | cons q0 rest ih =>
    intro best b h
    rw [searchAll_cons] at h
    rcases ih (foldCandidates best (env q0)) b h with hor | ⟨q, hq, hm, hs⟩
    · rcases foldCandidates_origin (env q0) best b hor with h1 | ⟨h1, h2⟩
      · exact Or.inl h1
      · exact Or.inr ⟨q0, List.mem_cons_self _ _, h1, h2⟩
    · exact Or.inr ⟨q, List.mem_cons_of_mem q0 hq, hm, hs⟩

theorem searchLoop_cons (env : String → List Candidate) (q : String) (rest : List String)
    (best : Option Scored) :
    searchLoop env (q :: rest) best =
      if qualifies (foldCandidates best (env q)) then foldCandidates best (env q)
      else searchLoop env rest (foldCandidates best (env q)) := rfl

theorem searchLoop_exhaust (env : String → List Candidate) :
    ∀ (qs : List String) (best : Option Scored),
      (∀ k, k ≤ qs.length → qualifies (searchAll env (qs.take k) best) = false) →
      searchLoop env qs best = searchAll env qs best := by
  intro qs
  induction qs with
  | nil => intro best _; rfl
  | cons q rest ih =>
    intro best h
    have h1 : qualifies (foldCandidates best (env q)) = false := by
      have := h 1 (by simp)
      simpa [searchAll_cons, searchAll] using this
    rw [searchLoop_cons, h1]
    simp only [Bool.false_eq_true, if_false]
    rw [searchAll_cons]
    refine ih (foldCandidates best (env q)) ?_
    intro k hk
    have := h (k + 1) (by simpa using Nat.succ_le_succ hk)
    simpa [List.take_succ_cons, searchAll_cons] using this

theorem searchLoop_early_exit (env : String → List Candidate) :
    ∀ (qs rest : List String) (best : Option Scored),
      qualifies best = false →
      (∃ k, k ≤ qs.length ∧ qualifies (searchAll env (qs.take k) best) = true) →
      searchLoop env (qs ++ rest) best = searchLoop env qs best := by
  intro qs
  induction qs with
  | nil =>
    rintro rest best h0 ⟨k, hk, hq⟩
    have hk0 : k = 0 := Nat.le_zero.mp (by simpa using hk)
    subst hk0
    rw [List.take_zero] at hq
    have : qualifies best = true := hq
    rw [h0] at this
    exact absurd this (by simp)
  | cons q qs' ih =>
    rintro rest best h0 ⟨k, hk, hq⟩
    show searchLoop env (q :: (qs' ++ rest)) best = _
    rw [searchLoop_cons, searchLoop_cons]
    by_cases hb : qualifies (foldCandidates best (env q)) = true
    · rw [hb]
      simp
    · have hb' : qualifies (foldCandidates best (env q)) = false := by
        simpa using hb
      rw [hb']
      simp only [Bool.false_eq_true, if_false]
      refine ih rest (foldCandidates best (env q)) hb' ?_
      cases k with
      | zero =>
        rw [List.take_zero] at hq
        have : qualifies best = true := hq
        rw [h0] at this
        exact absurd this (by simp)
      | succ j =>
        refine ⟨j, by simpa using Nat.le_of_succ_le_succ hk, ?_⟩
        rw [List.take_succ_cons, searchAll_cons] at hq
        exact hq

/-- Claim C5: the candidate scoring is exactly +5 for a `.BO`-suffixed symbol,
+3 for an exchange field mentioning BSE, +1 for region IN, +1 for quote
type EQUITY; the query variants are code alone, `code BSE`, `code India`
plus the three hint variants when a hint exists; the loop's early exit
fires exactly on `best score ≥ 7 and .BO suffix` (so once a prefix of
the variants reaches that, the remaining variants are irrelevant); and
with no qualifying prefix the loop folds every variant's candidates,
ending on a best candidate whose score dominates every candidate seen. -/
theorem claim_C5_search_scoring_and_early_exit (env : String → List Candidate)
    (code hint : String) (qs rest : List String) (b : Scored) :
    (∀ q : Candidate, scoreCandidate q =
        5 * (strEndsWith (upperStr q.symbol) ".BO").toNat +
          3 * (strContains (upperStr (firstTruthy [q.exchange, q.primaryExchange,
            q.exchangeDisp])) "BSE").toNat +
          (if upperStr q.region = "IN" then 1 else 0) +
          (if q.quoteType = "EQUITY" then 1 else 0)) ∧
      buildQueries code none = [code, code ++ " BSE", code ++ " India"] ∧
      buildQueries code (some hint) = [code, code ++ " BSE", code ++ " India",
        hint ++ " BSE", hint ++ " Bombay Stock Exchange", hint ++ " .BO"] ∧
      (∀ bb : Scored, qualifies (some bb) = (isBO bb.cand.symbol && decide (7 ≤ bb.score))) ∧
      ((∀ k, k ≤ qs.length → qualifies (searchAll env (qs.take k) none) = false) →
        searchLoop env qs none = searchAll env qs none) ∧
      ((∃ k, k ≤ qs.length ∧ qualifies (searchAll env (qs.take k) none) = true) →
        searchLoop env (qs ++ rest) none = searchLoop env qs none) ∧
      (searchAll env qs none = some b →
        (∀ q ∈ qs, ∀ c ∈ env q, scoreCandidate c ≤ b.score) ∧
          ∃ q ∈ qs, b.cand ∈ env q ∧ b.score = scoreCandidate b.cand) := by
  refine ⟨?_, rfl, rfl, fun bb => rfl, searchLoop_exhaust env qs none,
    searchLoop_early_exit env qs rest none rfl, ?_⟩
  · intro q
    unfold scoreCandidate
    by_cases h1 : strEndsWith (upperStr q.symbol) ".BO" <;>
      by_cases h2 : strContains (upperStr (firstTruthy [q.exchange, q.primaryExchange,
        q.exchangeDisp])) "BSE" <;>
        simp [h1, h2]
  · intro h
    refine ⟨searchAll_ge env qs none b h, ?_⟩
    rcases searchAll_origin env qs none b h with h1 | h2
    · exact Option.noConfusion h1
    · exact h2

/-- Witness for C5 at a concrete environment: the first query already
yields a `.BO` candidate scoring 10, so the loop exits early and the
trailing variants are never consulted; the score of that candidate obeys
the formula. -/
theorem claim_C5_witness :
    searchLoop
        (fun q => if q = "544107" then [⟨"BAJAJHFL.BO", "BSE", "", "", "IN", "EQUITY"⟩] else [])
        (["544107"] ++ ["544107 BSE", "544107 India"]) none =
      searchLoop
        (fun q => if q = "544107" then [⟨"BAJAJHFL.BO", "BSE", "", "", "IN", "EQUITY"⟩] else [])
        ["544107"] none ∧
      scoreCandidate ⟨"BAJAJHFL.BO", "BSE", "", "", "IN", "EQUITY"⟩ = 10 := by
  have h := claim_C5_search_scoring_and_early_exit
    (fun q => if q = "544107" then [⟨"BAJAJHFL.BO", "BSE", "", "", "IN", "EQUITY"⟩] else [])
    "544107" "hint" ["544107"] ["544107 BSE", "544107 India"]
    ⟨⟨"BAJAJHFL.BO", "BSE", "", "", "IN", "EQUITY"⟩, 10⟩
  exact ⟨h.2.2.2.2.2.1 (by decide), by decide⟩

/-! ## Lemmas: the scrape cascade and the resolver (C6, C3, C4) -/

theorem firstSome_append {α : Type} (l₁ l₂ : List (Option α)) :
    firstSome (l₁ ++ l₂) =
      match firstSome l₁ with
      | some v => some v
      | none => firstSome l₂ := by
  induction l₁ with
  | nil => rfl
  | cons o rest ih =>
    cases o with
    | some v => rfl
    | none => simpa [firstSome] using ih

/-- Claim C6: the scrape fallback tries the mobile page, then the desktop
company-info page, then the desktop financials page, exhausting each
page's ordered pattern list before moving on, and returns the first
non-empty match — it equals the flat page-major first-match cascade the
spec describes; and whenever the search step produced no acceptable
best candidate (and the resolution cache missed), the resolver proceeds
to exactly this scrape step before failing. -/
theorem claim_C6_scrape_cascade_order (env : PageEnv) :
    fetchBseSecurityId env = scrapeCascadeSpec env ∧
      (∀ (renv : ResolverEnv) (cache : SymbolCache) (codeRaw : String) (hint : Option String),
        (!(strTrim codeRaw).data.isEmpty && (strTrim codeRaw).data.all Char.isDigit) = true →
        jsMapLookup cache (resolveCacheKey (strTrim codeRaw) hint) = none →
        searchAccepted (searchLoop renv.search (buildQueries (strTrim codeRaw) hint) none)
          = false →
        resolveBseNumericToYahooSymbol renv cache codeRaw hint =
          resolveScrapeStep renv cache (resolveCacheKey (strTrim codeRaw) hint)
            (strTrim codeRaw) hint) := by
  constructor
  · unfold fetchBseSecurityId scrapeCascadeSpec tryPage
    simp only [List.map_cons, List.map_nil, List.flatten_cons, List.flatten_nil,
      List.append_nil]
    rw [firstSome_append, firstSome_append]
    cases h1 : firstSome ((List.range (patternCount BsePage.mobile)).map (env BsePage.mobile)) with
    | some s => simp
    | none =>
      cases h2 : firstSome ((List.range (patternCount BsePage.desktopInfo)).map
        (env BsePage.desktopInfo)) with
      | some s => simp
      | none => simp
  · intro renv cache codeRaw hint hnum hmiss hacc
    simp only [resolveBseNumericToYahooSymbol, hnum, Bool.not_true, Bool.false_eq_true,
      if_false, hmiss]
    cases hbest : searchLoop renv.search (buildQueries (strTrim codeRaw) hint) none with
    | none => rfl
    | some bb =>
      rw [hbest] at hacc
      rw [hacc]

/-- Witness for C6 at a concrete page environment where only the last
financials-page pattern matches: both cascades yield that match, and a
resolver whose search yields nothing runs the scrape step. -/
theorem claim_C6_witness :
    fetchBseSecurityId
        (fun pg n => if pg = BsePage.desktopFinancials ∧ n = 2 then some "bajajhfl" else none) =
      scrapeCascadeSpec
        (fun pg n => if pg = BsePage.desktopFinancials ∧ n = 2 then some "bajajhfl" else none) ∧
      resolveBseNumericToYahooSymbol
          ⟨fun _ => [],
            fun pg n => if pg = BsePage.desktopFinancials ∧ n = 2 then some "bajajhfl" else none,
            fun _ => true⟩ [] "544107" none =
        (.ok "BAJAJHFL.BO", [("BSE:544107:", "BAJAJHFL.BO")]) := by
  have h := claim_C6_scrape_cascade_order
    (fun pg n => if pg = BsePage.desktopFinancials ∧ n = 2 then some "bajajhfl" else none)
  refine ⟨h.1, ?_⟩
  rw [h.2 ⟨fun _ => [],
    fun pg n => if pg = BsePage.desktopFinancials ∧ n = 2 then some "bajajhfl" else none,
    fun _ => true⟩ [] "544107" none (by decide) (by decide) (by decide)]
  rfl

theorem resolve_cases (env : ResolverEnv) (cache : SymbolCache) (codeRaw : String)
    (hint : Option String) :
    (∃ m, resolveBseNumericToYahooSymbol env cache codeRaw hint = (.error m, cache)) ∨
      (∃ s, resolveBseNumericToYahooSymbol env cache codeRaw hint = (.ok s, cache) ∧
        jsMapLookup cache (resolveCacheKey (strTrim codeRaw) hint) = some s) ∨
      (∃ s, resolveBseNumericToYahooSymbol env cache codeRaw hint =
        (.ok s, jsMapSet cache (resolveCacheKey (strTrim codeRaw) hint) s)) := by
  simp only [resolveBseNumericToYahooSymbol]
  cases hn : (!(!(strTrim codeRaw).data.isEmpty && (strTrim codeRaw).data.all Char.isDigit)) with
  | true =>
    simp only [hn, if_true]
    exact Or.inl ⟨_, rfl⟩
  | false =>
    simp only [hn, Bool.false_eq_true, if_false]
    cases hl : jsMapLookup cache (resolveCacheKey (strTrim codeRaw) hint) with
    | some v =>
      exact Or.inr (Or.inl ⟨v, rfl, rfl⟩)
    | none =>
      cases hbest : searchLoop env.search (buildQueries (strTrim codeRaw) hint) none with
      | none =>
        unfold resolveScrapeStep
        cases hf : fetchBseSecurityId env.pages with
        | some secId => exact Or.inr (Or.inr ⟨_, rfl⟩)
        | none => exact Or.inl ⟨_, rfl⟩
      | some bb =>
        cases hacc : searchAccepted (some bb) with
        | true => exact Or.inr (Or.inr ⟨_, rfl⟩)
        | false =>
          unfold resolveScrapeStep
          cases hf : fetchBseSecurityId env.pages with
          | some secId => exact Or.inr (Or.inr ⟨_, rfl⟩)
          | none => exact Or.inl ⟨_, rfl⟩

/-- Claim C3, amended.  When every resolution strategy yields nothing, the
resolver fails with an error naming the code (and the hint, if given);
the deadline route's `normalizeForGoogle` catches that failure PER ITEM
(the batch is unaffected) and falls back to querying the numeric code
itself on exchange BOM, storing that fallback in the route-level
resolve cache — so the item's fundamentals result is whatever the
`CODE:BOM` Google scrape returns, not an `ok:false` "Could not resolve"
entry. -/
theorem claim_C3_resolution_failure_names_code (renv : ResolverEnv) (cache : SymbolCache)
    (rcache : ResolveCache) (item : RawItem) (codeRaw : String) (hint : Option String)
    (symbol : String) :
    (∀ c h, couldNotResolveMsg c (some h) =
        "Could not resolve BSE numeric " ++ c ++ " to a Yahoo symbol" ++
          (" (hint: " ++ h ++ ")")) ∧
      (∀ c, couldNotResolveMsg c none =
        "Could not resolve BSE numeric " ++ c ++ " to a Yahoo symbol") ∧
      ((!(strTrim codeRaw).data.isEmpty && (strTrim codeRaw).data.all Char.isDigit) = true →
        jsMapLookup cache (resolveCacheKey (strTrim codeRaw) hint) = none →
        searchAccepted (searchLoop renv.search (buildQueries (strTrim codeRaw) hint) none)
          = false →
        fetchBseSecurityId renv.pages = none →
        resolveBseNumericToYahooSymbol renv cache codeRaw hint =
          (.error (couldNotResolveMsg (strTrim codeRaw) hint), cache)) ∧
      (normalizeItemSymbolExchange item = (symbol, Exchange.BSE) →
        isNumericSymbol (cleanSym symbol) = true →
        jsMapLookup rcache (cleanSym symbol) = none →
        ∀ (m : String) (symC' : SymbolCache),
        resolveBseNumericToYahooSymbol renv cache (cleanSym symbol) none = (.error m, symC') →
        normalizeForGoogle renv cache rcache item =
          (⟨cleanSym (cleanSym symbol), Exchange.BOM⟩, symC',
            jsMapSet rcache (cleanSym symbol) ⟨cleanSym (cleanSym symbol), Exchange.BOM⟩)) := by
  refine ⟨fun c h => rfl, fun c => by simp [couldNotResolveMsg], ?_, ?_⟩
  · intro hnum hmiss hacc hscrape
    simp only [resolveBseNumericToYahooSymbol, hnum, Bool.not_true, Bool.false_eq_true,
      if_false, hmiss]
    have hstep : resolveScrapeStep renv cache (resolveCacheKey (strTrim codeRaw) hint)
        (strTrim codeRaw) hint =
        (.error (couldNotResolveMsg (strTrim codeRaw) hint), cache) := by
      unfold resolveScrapeStep
      rw [hscrape]
    cases hbest : searchLoop renv.search (buildQueries (strTrim codeRaw) hint) none with
    | none => exact hstep
    | some bb =>
      rw [hbest] at hacc
      rw [hacc]
      exact hstep
  · intro hnorm hnum hmiss m symC' hres
    simp [normalizeForGoogle, hnorm, hnum, hmiss, hres]

/-- Claim C3, counterexample to the claim as stated.  With a resolver
environment in which the search yields nothing and no scrape pattern
matches, resolution of "544107" fails with the error naming the code —
but the fundamentals result for the item is NOT
`{ok:false, error:"Could not resolve..."}`: the route falls back to
scraping `544107:BOM`, which here succeeds, so the item's result is
`ok:true`. -/
theorem claim_C3_counterexample :
    (fundamentalsDeadlineRoute ⟨fun _ => [], fun _ _ => none, fun _ => true⟩
          (fun _ => ⟨100, .ok ⟨"544107", Exchange.BOM, some 20, some 55⟩⟩)
          [] [] [] [⟨"544107", some Exchange.BSE⟩] 7000 6000).1.response =
        .success [⟨true, "544107", Exchange.BOM, some 20, some 55, none, false⟩] ∧
      resolveBseNumericToYahooSymbol ⟨fun _ => [], fun _ _ => none, fun _ => true⟩ []
          "544107" none =
        (.error "Could not resolve BSE numeric 544107 to a Yahoo symbol", []) :=
  ⟨by decide, rfl⟩

/-- Witness for C3 (amended) at a concrete failing environment: the
caller swallows the resolution error and produces the `544107:BOM`
fallback, caching it in the route-level resolve cache. -/
theorem claim_C3_witness :
    normalizeForGoogle ⟨fun _ => [], fun _ _ => none, fun _ => true⟩ [] []
        ⟨"544107", some Exchange.BSE⟩ =
      (⟨"544107", Exchange.BOM⟩, [], [("544107", ⟨"544107", Exchange.BOM⟩)]) := by
  have h := (claim_C3_resolution_failure_names_code
    ⟨fun _ => [], fun _ _ => none, fun _ => true⟩ [] [] ⟨"544107", some Exchange.BSE⟩
    "544107" none "544107").2.2.2 (by decide) (by decide) (by decide)
    "Could not resolve BSE numeric 544107 to a Yahoo symbol" [] rfl
  exact h

/-- Claim C4, amended.  The resolver's long-TTL `symbolMapCache` is written
only on full success: a failed resolution leaves it unchanged, and a
successful one either came from the cache or wrote exactly the resolved
symbol under the resolution key before returning.  However the deadline
route's `symbolResolveCache` does NOT share this discipline: on
resolution failure the catch block stores the numeric-code fallback
mapping under the raw code. -/
theorem claim_C4_cache_only_on_success (renv : ResolverEnv) (cache : SymbolCache)
    (rcache : ResolveCache) (item : RawItem) (symbol : String) :
    (∀ (codeRaw : String) (hint : Option String) (m : String),
        (resolveBseNumericToYahooSymbol renv cache codeRaw hint).1 = .error m →
        (resolveBseNumericToYahooSymbol renv cache codeRaw hint).2 = cache) ∧
      (∀ (codeRaw : String) (hint : Option String) (s : String),
        (resolveBseNumericToYahooSymbol renv cache codeRaw hint).1 = .ok s →
        ((resolveBseNumericToYahooSymbol renv cache codeRaw hint).2 = cache ∧
            jsMapLookup cache (resolveCacheKey (strTrim codeRaw) hint) = some s) ∨
          (resolveBseNumericToYahooSymbol renv cache codeRaw hint).2 =
            jsMapSet cache (resolveCacheKey (strTrim codeRaw) hint) s) ∧
      (normalizeItemSymbolExchange item = (symbol, Exchange.BSE) →
        isNumericSymbol (cleanSym symbol) = true →
        jsMapLookup rcache (cleanSym symbol) = none →
        ∀ (m : String) (symC' : SymbolCache),
        resolveBseNumericToYahooSymbol renv cache (cleanSym symbol) none = (.error m, symC') →
        (normalizeForGoogle renv cache rcache item).2.2 =
          jsMapSet rcache (cleanSym symbol) ⟨cleanSym (cleanSym symbol), Exchange.BOM⟩) := by
  refine ⟨?_, ?_, ?_⟩
  · intro codeRaw hint m h
    rcases resolve_cases renv cache codeRaw hint with ⟨m', hm'⟩ | ⟨s, hs, _⟩ | ⟨s, hs⟩
    · rw [hm']
    · rw [hs] at h
      exact Except.noConfusion h
    · rw [hs] at h
      exact Except.noConfusion h
  · intro codeRaw hint s h
    rcases resolve_cases renv cache codeRaw hint with ⟨m', hm'⟩ | ⟨s', hs, hl⟩ | ⟨s', hs⟩
    · rw [hm'] at h
      exact Except.noConfusion h
    · rw [hs] at h ⊢
      cases h
      exact Or.inl ⟨rfl, hl⟩
    · rw [hs] at h ⊢
      cases h
      exact Or.inr rfl
  · intro hnorm hnum hmiss m symC' hres
    simp [normalizeForGoogle, hnorm, hnum, hmiss, hres]

/-- Claim C4, counterexample to the claim as stated.  A resolution that fails
every strategy still causes a write to the 24 h route-level
`symbolResolveCache`: the failed lookup for "544107" is stored as the
fallback mapping `544107 ↦ {symbol: "544107", exchange: BOM}`, so a
failed lookup IS stored in a long-TTL resolution cache. -/
theorem claim_C4_counterexample :
    (normalizeForGoogle ⟨fun _ => [], fun _ _ => none, fun _ => true⟩ [] []
          ⟨"544107", some Exchange.BSE⟩).2.2 =
        [("544107", ⟨"544107", Exchange.BOM⟩)] ∧
      (normalizeForGoogle ⟨fun _ => [], fun _ _ => none, fun _ => true⟩ [] []
          ⟨"544107", some Exchange.BSE⟩).2.2 ≠ [] ∧
      (resolveBseNumericToYahooSymbol ⟨fun _ => [], fun _ _ => none, fun _ => true⟩ []
          "544107" none).1 =
        .error "Could not resolve BSE numeric 544107 to a Yahoo symbol" :=
  ⟨by decide, by decide, rfl⟩

/-- Witness for C4 (amended): a failing resolution leaves a non-empty
`symbolMapCache` exactly as it was. -/
theorem claim_C4_witness :
    (resolveBseNumericToYahooSymbol ⟨fun _ => [], fun _ _ => none, fun _ => true⟩
        [("BSE:1:", "X.BO")] "544107" none).2 = [("BSE:1:", "X.BO")] :=
  (claim_C4_cache_only_on_success ⟨fun _ => [], fun _ _ => none, fun _ => true⟩
    [("BSE:1:", "X.BO")] [] ⟨"", none⟩ "").1 "544107" none
    "Could not resolve BSE numeric 544107 to a Yahoo symbol" rfl

end Portfolio
